import Mathlib

/-!
Verification of the appointment-scheduling subsystem of the `care` EMR backend.

The definitions below are a shallow embedding of the Python source:
  - the booking ledger: `lock_create_appointment`
    (care/emr/api/viewsets/scheduling/availability.py),
    `TokenBookingViewSet.cancel_appointment_handler` and
    `TokenBookingViewSet.reschedule`
    (care/emr/api/viewsets/scheduling/booking.py);
  - the slot materializer `convert_availability_and_exceptions_to_slots` and
    `SlotViewSet.get_slots_for_day_handler`
    (care/emr/api/viewsets/scheduling/availability.py);
  - the statistics pipeline `SlotViewSet.availability_stats` and
    `calculate_slots` (same file);
  - `AvailabilityExceptionWriteSpec.perform_extra_deserialization`
    (care/emr/resources/scheduling/availability_exception/spec.py).

Modelling conventions:
  - Database rows become records in lists; Django queryset filters become
    list filters, and `save()` on a row becomes a pointwise list update.
  - `datetime` values are abstracted: a calendar day is a `Nat` with
    `weekday d = d % 7`, a time of day is its minute count from midnight,
    and the absolute `start_datetime` of a token slot in the booking ledger
    is an `Int`.  Arithmetic such as `current_time + timedelta(minutes=s)`
    becomes plain addition on minutes; wrap-around past midnight is outside
    the modelled range (all schedule windows live inside one day).
  - Python exceptions raised inside `transaction.atomic()` roll the
    transaction back, so a failing operation is embedded as
    `Except.error e` and the caller keeps the pre-state unchanged.
  - Python integers are unbounded, so counters such as `allocated` that the
    code decrements without a guard are embedded as `Int`.
-/

namespace Care

/-- Booking status values.  Modelled from the spec: the file
`care/emr/resources/scheduling/slot/spec.py` defining `BookingStatusChoices`
and `CANCELLED_STATUS_CHOICES` is not part of the provided sources; the spec
(section 3) lists `booked`, `checked_in`, other clinical-progress states and
the terminal set `cancelled`, `entered_in_error`, `rescheduled`, and
`CancelBookingSpec` in booking.py restricts cancel reasons to exactly those
three. -/
inductive BookingStatus where
  | booked
  | checked_in
  | in_consultation
  | fulfilled
  | noshow
  | cancelled
  | entered_in_error
  | rescheduled
deriving DecidableEq, Repr

/-- Modelled from the spec: `CANCELLED_STATUS_CHOICES` of
care/emr/resources/scheduling/slot/spec.py (section 3 of the spec: the
"cancelled set"). -/
def cancelledStatusChoices : List BookingStatus :=
  [.cancelled, .entered_in_error, .rescheduled]

/-- One `TokenSlot` row as seen by the booking ledger.  `tokensPerSlot`
denormalizes `slot.availability.tokens_per_slot` (the availability row is
never mutated by the three booking operations). -/
structure SlotRec where
  sid : Nat
  resource : Nat
  startDatetime : Int
  tokensPerSlot : Int
  allocated : Int
deriving DecidableEq, Repr

/-- One `TokenBooking` row. -/
structure BookingRec where
  tokenSlot : Nat
  patient : Nat
  status : BookingStatus
  bookedBy : Nat
  updatedBy : Option Nat
  reasonForVisit : String
deriving DecidableEq, Repr

/-- The mutable state touched by the booking ledger: the `TokenSlot` table
and the `TokenBooking` table.  Bookings are identified by their index in the
list. -/
structure LedgerState where
  slots : List SlotRec
  bookings : List BookingRec
deriving DecidableEq, Repr

/-- The failures the three booking operations can surface.  Each
constructor corresponds to one `ValidationError` / 404 in the source:
`slotExpired` = "Slot is already past", `slotFull` = "Slot is already full",
`duplicateBooking` = "Patient already has a booking for this slot",
`invalidReason` = the pydantic `CancelBookingSpec` Literal rejection,
`notFound` = `get_object_or_404` failures. -/
inductive BookingError where
  | slotExpired
  | slotFull
  | duplicateBooking
  | invalidReason
  | notFound
deriving DecidableEq, Repr

def findSlot (st : LedgerState) (sid : Nat) : Option SlotRec :=
  st.slots.find? (fun s => s.sid = sid)

/-- `slot.allocated += delta; slot.save()`. -/
def updateSlotAllocated (st : LedgerState) (sid : Nat) (delta : Int) : LedgerState :=
  { st with slots := st.slots.map (fun s =>
      if s.sid = sid then { s with allocated := s.allocated + delta } else s) }

/-- A booking is active when its status is not in the cancelled set
(`.exclude(status__in=CANCELLED_STATUS_CHOICES)`). -/
def isActive (b : BookingRec) : Bool :=
  !(cancelledStatusChoices.contains b.status)

/-- `TokenBooking.objects.filter(token_slot=token_slot, patient=patient)
.exclude(status__in=CANCELLED_STATUS_CHOICES).exists()`. -/
def hasActiveBooking (bookings : List BookingRec) (sid patient : Nat) : Bool :=
  bookings.any (fun b => b.tokenSlot = sid && b.patient = patient && isActive b)

/-- `lock_create_appointment` of
care/emr/api/viewsets/scheduling/availability.py.  The `Lock` acquisition
and `transaction.atomic()` context serialize the operation; a raised
`ValidationError` rolls everything back, embedded as `Except.error`. -/
def lockCreateAppointment (st : LedgerState) (sid patient createdBy : Nat)
    (reasonForVisit : String) (now : Int) : Except BookingError LedgerState :=
  match findSlot st sid with
  | none => .error .notFound
  | some tokenSlot =>
    if tokenSlot.startDatetime < now then .error .slotExpired
    else if tokenSlot.allocated ≥ tokenSlot.tokensPerSlot then .error .slotFull
    else if hasActiveBooking st.bookings sid patient then .error .duplicateBooking
    else
      let st1 := updateSlotAllocated st sid 1
      .ok { st1 with bookings := st1.bookings ++
              [⟨sid, patient, .booked, createdBy, none, reasonForVisit⟩] }

/-- `TokenBookingViewSet.cancel_appointment_handler` of
care/emr/api/viewsets/scheduling/booking.py.  The pydantic
`CancelBookingSpec` restricts `reason` to the cancelled set, embedded as the
`invalidReason` guard; the booking to cancel is `st.bookings[bIdx]`. -/
def cancelAppointmentHandler (st : LedgerState) (bIdx : Nat)
    (reason : BookingStatus) (user : Nat) : Except BookingError LedgerState :=
  if !(cancelledStatusChoices.contains reason) then .error .invalidReason
  else
    match st.bookings[bIdx]? with
    | none => .error .notFound
    | some b =>
      let st1 := if isActive b then updateSlotAllocated st b.tokenSlot (-1) else st
      .ok { st1 with bookings :=
              st1.bookings.set bIdx { b with status := reason, updatedBy := some user } }

/-- `token_slot.allocated = value; token_slot.save()` for an already-fetched
instance: the save writes the instance's counter into the row, overwriting
whatever the row holds at that point. -/
def writeSlotAllocated (st : LedgerState) (sid : Nat) (value : Int) : LedgerState :=
  { st with slots := st.slots.map (fun s =>
      if s.sid = sid then { s with allocated := value } else s) }

/-- `lock_create_appointment` as called with an already-fetched `token_slot`
instance (`reschedule` fetches `new_slot` at booking.py:138, before its
cancel phase runs).  The expired and full checks read the instance's —
possibly stale — fields, and `token_slot.allocated += 1; token_slot.save()`
writes the instance's counter plus one back into the row; only the
duplicate-booking check queries the database afresh. -/
def lockCreateAppointmentInstance (st : LedgerState) (tokenSlot : SlotRec)
    (patient createdBy : Nat) (reasonForVisit : String) (now : Int) :
    Except BookingError LedgerState :=
  if tokenSlot.startDatetime < now then .error .slotExpired
  else if tokenSlot.allocated ≥ tokenSlot.tokensPerSlot then .error .slotFull
  else if hasActiveBooking st.bookings tokenSlot.sid patient then
    .error .duplicateBooking
  else
    let st1 := writeSlotAllocated st tokenSlot.sid (tokenSlot.allocated + 1)
    .ok { st1 with bookings := st1.bookings ++
            [⟨tokenSlot.sid, patient, .booked, createdBy, none, reasonForVisit⟩] }

/-- `TokenBookingViewSet.reschedule` of
care/emr/api/viewsets/scheduling/booking.py: `new_slot` is fetched BEFORE
the transaction (404 unless it belongs to the same resource as the
booking's slot); then, inside one `transaction.atomic()`, the existing
booking is cancelled with reason `rescheduled` — decrementing its own
slot's row — and `lock_create_appointment` runs on the stale `new_slot`
instance fetched earlier.  When `new_slot` is the booking's own slot the
create phase therefore checks the pre-cancel `allocated` and writes back
`pre-cancel allocated + 1`, clobbering the cancel phase's decrement.  A
failure of the inner create rolls back the whole transaction. -/
def reschedule (st : LedgerState) (bIdx newSlotId user : Nat) (now : Int) :
    Except BookingError LedgerState :=
  match st.bookings[bIdx]? with
  | none => .error .notFound
  | some existingBooking =>
    match findSlot st existingBooking.tokenSlot, findSlot st newSlotId with
    | some oldSlot, some newSlot =>
      if newSlot.resource = oldSlot.resource then
        match cancelAppointmentHandler st bIdx .rescheduled user with
        | .ok st1 =>
          lockCreateAppointmentInstance st1 newSlot existingBooking.patient user
            existingBooking.reasonForVisit now
        | .error e => .error e
      else .error .notFound
    | _, _ => .error .notFound

/-- Number of non-cancelled bookings on a slot. -/
def countActive (bookings : List BookingRec) (sid : Nat) : Nat :=
  (bookings.filter (fun b => b.tokenSlot = sid && isActive b)).length

/-- The inductively maintained ledger invariants: unique slot ids, the
allocation counter of every slot is between 0 and its availability's
`tokens_per_slot` and is at least the number of non-cancelled bookings on
the slot (the stale-instance write of a same-slot reschedule can push it
strictly above that count), every booking references an existing slot, and
at most one non-cancelled booking exists per (slot, patient) pair. -/
def WfLedger (st : LedgerState) : Prop :=
  (st.slots.map (fun s => s.sid)).Nodup ∧
  (∀ s ∈ st.slots, 0 ≤ s.allocated ∧ s.allocated ≤ s.tokensPerSlot ∧
      (countActive st.bookings s.sid : Int) ≤ s.allocated) ∧
  (∀ b ∈ st.bookings, ∃ s ∈ st.slots, s.sid = b.tokenSlot) ∧
  st.bookings.Pairwise (fun b1 b2 =>
    ¬(isActive b1 = true ∧ isActive b2 = true ∧
      b1.tokenSlot = b2.tokenSlot ∧ b1.patient = b2.patient))

/-- C2: `create_appointment` fails with `SlotExpired` exactly when the slot
start is in the past, with `SlotFull` exactly when (not expired and) the
slot is at capacity, with `DuplicateBooking` exactly when (neither of the
former and) a non-cancelled booking for the pair already exists, and
otherwise increments `allocated` by one and appends a `booked` booking.
On every failure the returned value is an error, which by the
`transaction.atomic` rollback convention of this embedding means the state
is unchanged. -/
theorem c2_create_appointment_spec (st : LedgerState) (sid patient createdBy : Nat)
    (reasonForVisit : String) (now : Int) (ts : SlotRec)
    (hfind : findSlot st sid = some ts) :
    (lockCreateAppointment st sid patient createdBy reasonForVisit now = .error .slotExpired
        ↔ ts.startDatetime < now) ∧
    (lockCreateAppointment st sid patient createdBy reasonForVisit now = .error .slotFull
        ↔ ¬ts.startDatetime < now ∧ ts.allocated ≥ ts.tokensPerSlot) ∧
    (lockCreateAppointment st sid patient createdBy reasonForVisit now = .error .duplicateBooking
        ↔ ¬ts.startDatetime < now ∧ ¬ts.allocated ≥ ts.tokensPerSlot ∧
          hasActiveBooking st.bookings sid patient = true) ∧
    (¬ts.startDatetime < now ∧ ¬ts.allocated ≥ ts.tokensPerSlot ∧
        hasActiveBooking st.bookings sid patient = false →
      lockCreateAppointment st sid patient createdBy reasonForVisit now =
        .ok { slots := (updateSlotAllocated st sid 1).slots,
              bookings := st.bookings ++
                [⟨sid, patient, .booked, createdBy, none, reasonForVisit⟩] }) := by
  unfold lockCreateAppointment
  rw [hfind]
  dsimp only
  split_ifs with h1 h2 h3 <;>
    simp_all [updateSlotAllocated]

/-- Witness for `c2_create_appointment_spec` at a concrete one-slot state:
the slot is at capacity, so the operation reports `SlotFull`. -/
theorem c2_create_appointment_spec_witness :
    let st : LedgerState :=
      { slots := [⟨1, 0, 100, 2, 2⟩], bookings := [] }
    lockCreateAppointment st 1 7 9 "visit" 50 = .error .slotFull := by
  intro st
  exact ((c2_create_appointment_spec st 1 7 9 "visit" 50 ⟨1, 0, 100, 2, 2⟩
    (by decide)).2.1).2 (by decide)

/-- C3: cancelling a booking always succeeds, always sets its status to the
given reason and `updated_by` to the actor, decrements the owning slot's
`allocated` by one exactly when the booking was not already in the
cancelled set, and leaves every slot untouched when it was; moreover any
further cancel of the same booking (to any terminal reason) leaves all
allocation counters unchanged. -/
theorem c3_cancel_releases_once (st : LedgerState) (bIdx user : Nat)
    (reason : BookingStatus) (b : BookingRec)
    (hb : st.bookings[bIdx]? = some b)
    (hreason : reason ∈ cancelledStatusChoices) :
    ∃ st', cancelAppointmentHandler st bIdx reason user = .ok st' ∧
      st'.bookings = st.bookings.set bIdx { b with status := reason, updatedBy := some user } ∧
      (isActive b = true → st'.slots = (updateSlotAllocated st b.tokenSlot (-1)).slots) ∧
      (isActive b = false → st'.slots = st.slots) ∧
      (∀ reason2 ∈ cancelledStatusChoices, ∀ user2 : Nat,
        ∃ st2, cancelAppointmentHandler st' bIdx reason2 user2 = .ok st2 ∧
          st2.slots = st'.slots) := by
  have hcontains : cancelledStatusChoices.contains reason = true :=
    List.elem_eq_true_of_mem hreason
  have hlt : bIdx < st.bookings.length := by
    rcases List.getElem?_eq_some.mp hb with ⟨hlen, _⟩
    exact hlen
  refine ⟨{ slots := (if isActive b then updateSlotAllocated st b.tokenSlot (-1) else st).slots,
            bookings := st.bookings.set bIdx
              { b with status := reason, updatedBy := some user } }, ?_, ?_, ?_, ?_, ?_⟩
  · by_cases hact : isActive b = true <;>
      simp [cancelAppointmentHandler, hcontains, hreason, hb, hact, updateSlotAllocated]
  · rfl
  · intro hact
    simp [hact]
  · intro hact
    simp [hact]
  · intro reason2 hreason2 user2
    have hcontains2 : cancelledStatusChoices.contains reason2 = true :=
      List.elem_eq_true_of_mem hreason2
    have hb' : (st.bookings.set bIdx
        { b with status := reason, updatedBy := some user })[bIdx]? =
        some { b with status := reason, updatedBy := some user } :=
      List.getElem?_set_self hlt
    have hinactive : isActive { b with status := reason, updatedBy := some user } = false := by
      simp [isActive, hcontains, hreason]
    by_cases hact : isActive b = true <;>
      simp [cancelAppointmentHandler, hcontains, hcontains2, hreason, hreason2, hb, hb',
        hact, hinactive]

/-- Witness for `c3_cancel_releases_once`: a concrete booked booking on a
slot with `allocated = 1`; cancelling it succeeds. -/
theorem c3_cancel_releases_once_witness :
    let st : LedgerState :=
      { slots := [⟨1, 0, 100, 2, 1⟩],
        bookings := [⟨1, 7, .booked, 9, none, "visit"⟩] }
    ∃ st', cancelAppointmentHandler st 0 .cancelled 9 = .ok st' ∧
      st'.bookings = st.bookings.set 0
        ⟨1, 7, .cancelled, 9, some 9, "visit"⟩ ∧
      (isActive ⟨1, 7, .booked, 9, none, "visit"⟩ = true →
        st'.slots = (updateSlotAllocated st 1 (-1)).slots) ∧
      (isActive ⟨1, 7, .booked, 9, none, "visit"⟩ = false → st'.slots = st.slots) ∧
      (∀ reason2 ∈ cancelledStatusChoices, ∀ user2 : Nat,
        ∃ st2, cancelAppointmentHandler st' 0 reason2 user2 = .ok st2 ∧
          st2.slots = st'.slots) := by
  intro st
  exact c3_cancel_releases_once st 0 9 .cancelled ⟨1, 7, .booked, 9, none, "visit"⟩
    (by decide) (by decide)

/-! Helper lemmas about the ledger embedding, shared by several claims. -/

/-- Contribution of one booking row to `countActive` for a slot id. -/
def bookingContrib (b : BookingRec) (sid : Nat) : Nat :=
  if b.tokenSlot = sid ∧ isActive b = true then 1 else 0

theorem countActive_nil (sid : Nat) : countActive [] sid = 0 := rfl

theorem countActive_cons (b : BookingRec) (l : List BookingRec) (sid : Nat) :
    countActive (b :: l) sid = bookingContrib b sid + countActive l sid := by
  by_cases h : b.tokenSlot = sid ∧ isActive b = true
  · simp [countActive, bookingContrib, List.filter_cons, h]
    omega
  · have hb : (b.tokenSlot = sid && isActive b) = false := by
      rcases Decidable.not_and_iff_or_not.mp h with h1 | h1 <;> simp [h1]
    simp [countActive, bookingContrib, List.filter_cons, hb, h]

theorem countActive_append (l1 l2 : List BookingRec) (sid : Nat) :
    countActive (l1 ++ l2) sid = countActive l1 sid + countActive l2 sid := by
  simp [countActive, List.filter_append]

theorem countActive_set (l : List BookingRec) (i : Nat) (b b' : BookingRec)
    (h : l[i]? = some b) (sid : Nat) :
    countActive (l.set i b') sid + bookingContrib b sid =
      countActive l sid + bookingContrib b' sid := by
  induction l generalizing i with
  | nil => simp at h
  | cons a t ih =>
    cases i with
    | zero =>
      simp only [List.getElem?_cons_zero, Option.some.injEq] at h
      subst h
      simp [List.set_cons_zero, countActive_cons]
      omega
    | succ j =>
      simp only [List.getElem?_cons_succ] at h
      simp only [List.set_cons_succ, countActive_cons]
      have := ih j h
      omega

theorem bookingContrib_le_countActive (l : List BookingRec) (i : Nat) (b : BookingRec)
    (h : l[i]? = some b) (sid : Nat) :
    bookingContrib b sid ≤ countActive l sid := by
  induction l generalizing i with
  | nil => simp at h
  | cons a t ih =>
    cases i with
    | zero =>
      simp only [List.getElem?_cons_zero, Option.some.injEq] at h
      subst h
      rw [countActive_cons]
      omega
    | succ j =>
      simp only [List.getElem?_cons_succ] at h
      rw [countActive_cons]
      have := ih j h
      omega

theorem findSlot_mem (st : LedgerState) (sid : Nat) (s : SlotRec)
    (h : findSlot st sid = some s) : s ∈ st.slots ∧ s.sid = sid := by
  refine ⟨List.mem_of_find?_eq_some h, ?_⟩
  have := List.find?_some h
  simpa using this

theorem sid_unique (st : LedgerState) (hnodup : (st.slots.map (fun s => s.sid)).Nodup)
    (s t : SlotRec) (hs : s ∈ st.slots) (ht : t ∈ st.slots) (h : s.sid = t.sid) :
    s = t :=
  List.inj_on_of_nodup_map hnodup hs ht h

theorem updateSlotAllocated_slots (st : LedgerState) (sid : Nat) (delta : Int) :
    (updateSlotAllocated st sid delta).slots = st.slots.map (fun s =>
      if s.sid = sid then { s with allocated := s.allocated + delta } else s) := rfl

theorem updateSlotAllocated_bookings (st : LedgerState) (sid : Nat) (delta : Int) :
    (updateSlotAllocated st sid delta).bookings = st.bookings := rfl

theorem updateSlotAllocated_map_sid (st : LedgerState) (sid : Nat) (delta : Int) :
    (updateSlotAllocated st sid delta).slots.map (fun s => s.sid) =
      st.slots.map (fun s => s.sid) := by
  rw [updateSlotAllocated_slots, List.map_map]
  refine List.map_congr_left (fun s _ => ?_)
  by_cases h : s.sid = sid <;> simp [h]

theorem mem_updateSlotAllocated (st : LedgerState) (sid : Nat) (delta : Int)
    (s' : SlotRec) :
    s' ∈ (updateSlotAllocated st sid delta).slots ↔
      ∃ s ∈ st.slots,
        s' = if s.sid = sid then { s with allocated := s.allocated + delta } else s := by
  rw [updateSlotAllocated_slots, List.mem_map]
  constructor
  · rintro ⟨s, hs, rfl⟩; exact ⟨s, hs, rfl⟩
  · rintro ⟨s, hs, rfl⟩; exact ⟨s, hs, rfl⟩

theorem writeSlotAllocated_slots (st : LedgerState) (sid : Nat) (value : Int) :
    (writeSlotAllocated st sid value).slots = st.slots.map (fun s =>
      if s.sid = sid then { s with allocated := value } else s) := rfl

theorem writeSlotAllocated_bookings (st : LedgerState) (sid : Nat) (value : Int) :
    (writeSlotAllocated st sid value).bookings = st.bookings := rfl

theorem writeSlotAllocated_map_sid (st : LedgerState) (sid : Nat) (value : Int) :
    (writeSlotAllocated st sid value).slots.map (fun s => s.sid) =
      st.slots.map (fun s => s.sid) := by
  rw [writeSlotAllocated_slots, List.map_map]
  refine List.map_congr_left (fun s _ => ?_)
  by_cases h : s.sid = sid <;> simp [h]

theorem mem_writeSlotAllocated (st : LedgerState) (sid : Nat) (value : Int)
    (s' : SlotRec) :
    s' ∈ (writeSlotAllocated st sid value).slots ↔
      ∃ s ∈ st.slots,
        s' = if s.sid = sid then { s with allocated := value } else s := by
  rw [writeSlotAllocated_slots, List.mem_map]
  constructor
  · rintro ⟨s, hs, rfl⟩; exact ⟨s, hs, rfl⟩
  · rintro ⟨s, hs, rfl⟩; exact ⟨s, hs, rfl⟩

theorem isActive_booked (sid patient createdBy : Nat) (reasonForVisit : String) :
    isActive ⟨sid, patient, .booked, createdBy, none, reasonForVisit⟩ = true := rfl

theorem isActive_false_of_cancelled (b : BookingRec)
    (h : b.status ∈ cancelledStatusChoices) : isActive b = false := by
  simp [isActive]
  exact h

/-- Success shape of `lockCreateAppointment`: the guards that held and the
resulting state. -/
theorem lockCreateAppointment_ok (st st' : LedgerState) (sid patient createdBy : Nat)
    (reasonForVisit : String) (now : Int)
    (h : lockCreateAppointment st sid patient createdBy reasonForVisit now = .ok st') :
    ∃ ts, findSlot st sid = some ts ∧ ¬ts.startDatetime < now ∧
      ts.allocated < ts.tokensPerSlot ∧
      hasActiveBooking st.bookings sid patient = false ∧
      st' = { slots := (updateSlotAllocated st sid 1).slots,
              bookings := st.bookings ++
                [⟨sid, patient, .booked, createdBy, none, reasonForVisit⟩] } := by
  unfold lockCreateAppointment at h
  rcases hfind : findSlot st sid with _ | ts
  · rw [hfind] at h; exact absurd h (by simp)
  · rw [hfind] at h
    dsimp only at h
    split_ifs at h with h1 h2 h3
    exact ⟨ts, rfl, h1, by omega, by simpa using h3, (Except.ok.inj h).symm⟩

/-- Success shape of `lockCreateAppointmentInstance`: the checks read the
instance, the write stores `instance.allocated + 1`. -/
theorem lockCreateAppointmentInstance_ok (st st' : LedgerState)
    (tokenSlot : SlotRec) (patient createdBy : Nat) (reasonForVisit : String)
    (now : Int)
    (h : lockCreateAppointmentInstance st tokenSlot patient createdBy
      reasonForVisit now = .ok st') :
    ¬tokenSlot.startDatetime < now ∧
    tokenSlot.allocated < tokenSlot.tokensPerSlot ∧
    hasActiveBooking st.bookings tokenSlot.sid patient = false ∧
    st' = { slots := (writeSlotAllocated st tokenSlot.sid
              (tokenSlot.allocated + 1)).slots,
            bookings := st.bookings ++
              [⟨tokenSlot.sid, patient, .booked, createdBy, none,
                reasonForVisit⟩] } := by
  unfold lockCreateAppointmentInstance at h
  split_ifs at h with h1 h2 h3
  exact ⟨h1, by omega, by simpa using h3, (Except.ok.inj h).symm⟩

theorem lockCreateAppointmentInstance_error (st : LedgerState)
    (tokenSlot : SlotRec) (patient createdBy : Nat) (reasonForVisit : String)
    (now : Int) (e : BookingError)
    (h : lockCreateAppointmentInstance st tokenSlot patient createdBy
      reasonForVisit now = .error e) :
    e = .slotExpired ∨ e = .slotFull ∨ e = .duplicateBooking := by
  unfold lockCreateAppointmentInstance at h
  split_ifs at h with h1 h2 h3
  · exact Or.inl (Except.error.inj h).symm
  · exact Or.inr (Or.inl (Except.error.inj h).symm)
  · exact Or.inr (Or.inr (Except.error.inj h).symm)

/-- Success shape of `cancelAppointmentHandler`. -/
theorem cancelAppointmentHandler_ok (st st' : LedgerState) (bIdx : Nat)
    (reason : BookingStatus) (user : Nat)
    (h : cancelAppointmentHandler st bIdx reason user = .ok st') :
    reason ∈ cancelledStatusChoices ∧
    ∃ b, st.bookings[bIdx]? = some b ∧
      st' = { slots := (if isActive b then updateSlotAllocated st b.tokenSlot (-1)
                        else st).slots,
              bookings := st.bookings.set bIdx
                { b with status := reason, updatedBy := some user } } := by
  unfold cancelAppointmentHandler at h
  rcases hmem : cancelledStatusChoices.contains reason with _ | _
  · rw [hmem] at h; exact absurd h (by simp)
  · rw [hmem] at h
    refine ⟨by simpa using hmem, ?_⟩
    rcases hb : st.bookings[bIdx]? with _ | b
    · rw [hb] at h; exact absurd h (by simp)
    · rw [hb] at h
      refine ⟨b, rfl, ?_⟩
      by_cases hact : isActive b = true
      · simp only [hact, if_true, Bool.not_true, Bool.false_eq_true, if_false,
          Except.ok.injEq] at h ⊢
        exact h.symm
      · simp only [Bool.not_eq_true] at hact
        simp only [hact, Bool.not_true, Bool.false_eq_true, if_false,
          Except.ok.injEq] at h ⊢
        exact h.symm

/-- `WfLedger` is preserved by a successful `lockCreateAppointment`. -/
theorem wfLedger_lockCreateAppointment (st st' : LedgerState)
    (sid patient createdBy : Nat) (reasonForVisit : String) (now : Int)
    (hwf : WfLedger st)
    (h : lockCreateAppointment st sid patient createdBy reasonForVisit now = .ok st') :
    WfLedger st' := by
  obtain ⟨ts, hfind, _, hcap, hdup, hst'⟩ :=
    lockCreateAppointment_ok st st' sid patient createdBy reasonForVisit now h
  obtain ⟨hts_mem, hts_sid⟩ := findSlot_mem st sid ts hfind
  obtain ⟨hnodup, hslots, hfk, hpair⟩ := hwf
  subst hst'
  set newb : BookingRec := ⟨sid, patient, .booked, createdBy, none, reasonForVisit⟩
  refine ⟨?_, ?_, ?_, ?_⟩
  · simpa [updateSlotAllocated_map_sid] using hnodup
  · intro s' hs'
    dsimp only at hs'
    rw [mem_updateSlotAllocated] at hs'
    obtain ⟨s, hs, hs'eq⟩ := hs'
    obtain ⟨h0, hle, hcount⟩ := hslots s hs
    have hcount' : countActive (st.bookings ++ [newb]) s.sid =
        countActive st.bookings s.sid + bookingContrib newb s.sid := by
      rw [countActive_append, countActive_cons, countActive_nil]
      omega
    by_cases hsid : s.sid = sid
    · have hsts : s = ts := sid_unique st hnodup s ts hs hts_mem (hsid.trans hts_sid.symm)
      subst hsts
      have hcontrib : bookingContrib newb s.sid = 1 := by
        simp [bookingContrib, newb, hsid, isActive_booked]
      rw [if_pos hsid] at hs'eq
      subst hs'eq
      refine ⟨?_, ?_, ?_⟩
      · show (0:Int) ≤ s.allocated + 1
        omega
      · show s.allocated + 1 ≤ s.tokensPerSlot
        omega
      · show (countActive (st.bookings ++ [newb]) s.sid : Int) ≤ s.allocated + 1
        rw [hcount', hcontrib]
        push_cast
        omega
    · have hcontrib : bookingContrib newb s.sid = 0 := by
        simp [bookingContrib, newb]
        intro heq
        exact absurd heq.symm hsid
      rw [if_neg hsid] at hs'eq
      subst hs'eq
      refine ⟨h0, hle, ?_⟩
      simp only [hcount', hcontrib]
      omega
  · intro b hb
    dsimp only at hb
    rcases List.mem_append.mp hb with hb | hb
    · obtain ⟨s, hs, hssid⟩ := hfk b hb
      refine ⟨if s.sid = sid then { s with allocated := s.allocated + 1 } else s, ?_, ?_⟩
      · rw [mem_updateSlotAllocated]; exact ⟨s, hs, rfl⟩
      · by_cases hcase : s.sid = sid
        · rw [if_pos hcase]; exact hssid
        · rw [if_neg hcase]; exact hssid
    · have hbeq : b = newb := by simpa using hb
      subst hbeq
      refine ⟨if ts.sid = sid then { ts with allocated := ts.allocated + 1 } else ts, ?_, ?_⟩
      · rw [mem_updateSlotAllocated]; exact ⟨ts, hts_mem, rfl⟩
      · by_cases hcase : ts.sid = sid
        · rw [if_pos hcase]; exact hts_sid
        · rw [if_neg hcase]; exact hts_sid
  · dsimp only
    rw [List.pairwise_append]
    refine ⟨hpair, List.pairwise_singleton _ _, ?_⟩
    intro b1 hb1 b2 hb2
    have hb2eq : b2 = newb := by simpa using hb2
    subst hb2eq
    rintro ⟨hact1, _, hslot1, hpat1⟩
    have : hasActiveBooking st.bookings sid patient = true := by
      unfold hasActiveBooking
      rw [List.any_eq_true]
      exact ⟨b1, hb1, by simp [hslot1, hpat1, hact1]⟩
    rw [hdup] at this
    exact absurd this (by simp)

/-- `WfLedger` is preserved by a successful `lockCreateAppointmentInstance`
whenever the fetched instance dominates every stored row of its id: same
capacity, and a stored `allocated` at most the instance's (in `reschedule`
the row can only have been decremented since the fetch). -/
theorem wfLedger_lockCreateAppointmentInstance (st st' : LedgerState)
    (tokenSlot : SlotRec) (patient createdBy : Nat) (reasonForVisit : String)
    (now : Int) (hwf : WfLedger st)
    (hrow : ∀ row ∈ st.slots, row.sid = tokenSlot.sid →
      row.allocated ≤ tokenSlot.allocated ∧
      row.tokensPerSlot = tokenSlot.tokensPerSlot)
    (hex : ∃ row ∈ st.slots, row.sid = tokenSlot.sid)
    (h : lockCreateAppointmentInstance st tokenSlot patient createdBy
      reasonForVisit now = .ok st') : WfLedger st' := by
  obtain ⟨_, hcap, hdup, hst'⟩ :=
    lockCreateAppointmentInstance_ok st st' tokenSlot patient createdBy
      reasonForVisit now h
  obtain ⟨hnodup, hslots, hfk, hpair⟩ := hwf
  subst hst'
  set newb : BookingRec :=
    ⟨tokenSlot.sid, patient, .booked, createdBy, none, reasonForVisit⟩
  refine ⟨?_, ?_, ?_, ?_⟩
  · simpa [writeSlotAllocated_map_sid] using hnodup
  · intro s' hs'
    dsimp only at hs'
    rw [mem_writeSlotAllocated] at hs'
    obtain ⟨s, hs, hs'eq⟩ := hs'
    obtain ⟨h0, hle, hcount⟩ := hslots s hs
    have hcount' : countActive (st.bookings ++ [newb]) s.sid =
        countActive st.bookings s.sid + bookingContrib newb s.sid := by
      rw [countActive_append, countActive_cons, countActive_nil]
      omega
    by_cases hsid : s.sid = tokenSlot.sid
    · obtain ⟨hsalloc, hstok⟩ := hrow s hs hsid
      have hcontrib : bookingContrib newb s.sid = 1 := by
        simp [bookingContrib, newb, hsid, isActive_booked]
      rw [if_pos hsid] at hs'eq
      subst hs'eq
      refine ⟨?_, ?_, ?_⟩
      · show (0:Int) ≤ tokenSlot.allocated + 1
        omega
      · show tokenSlot.allocated + 1 ≤ s.tokensPerSlot
        omega
      · show (countActive (st.bookings ++ [newb]) s.sid : Int) ≤
            tokenSlot.allocated + 1
        rw [hcount', hcontrib]
        push_cast
        omega
    · have hcontrib : bookingContrib newb s.sid = 0 := by
        simp [bookingContrib, newb]
        intro heq
        exact absurd heq.symm hsid
      rw [if_neg hsid] at hs'eq
      subst hs'eq
      refine ⟨h0, hle, ?_⟩
      simp only [hcount', hcontrib]
      omega
  · intro b hb
    dsimp only at hb
    rcases List.mem_append.mp hb with hb | hb
    · obtain ⟨s, hs, hssid⟩ := hfk b hb
      refine ⟨if s.sid = tokenSlot.sid then { s with allocated := tokenSlot.allocated + 1 }
              else s, ?_, ?_⟩
      · rw [mem_writeSlotAllocated]; exact ⟨s, hs, rfl⟩
      · by_cases hcase : s.sid = tokenSlot.sid
        · rw [if_pos hcase]; exact hssid
        · rw [if_neg hcase]; exact hssid
    · have hbeq : b = newb := by simpa using hb
      subst hbeq
      obtain ⟨row, hrmem, hrsid⟩ := hex
      refine ⟨if row.sid = tokenSlot.sid then { row with allocated := tokenSlot.allocated + 1 }
              else row, ?_, ?_⟩
      · rw [mem_writeSlotAllocated]; exact ⟨row, hrmem, rfl⟩
      · rw [if_pos hrsid]; exact hrsid
  · dsimp only
    rw [List.pairwise_append]
    refine ⟨hpair, List.pairwise_singleton _ _, ?_⟩
    intro b1 hb1 b2 hb2
    have hb2eq : b2 = newb := by simpa using hb2
    subst hb2eq
    rintro ⟨hact1, _, hslot1, hpat1⟩
    have : hasActiveBooking st.bookings tokenSlot.sid patient = true := by
      unfold hasActiveBooking
      rw [List.any_eq_true]
      exact ⟨b1, hb1, by simp [hslot1, hpat1, hact1]⟩
    rw [hdup] at this
    exact absurd this (by simp)

theorem pairwise_set_of_forall {α : Type} (R : α → α → Prop) (l : List α) (i : Nat)
    (a : α) (hp : l.Pairwise R) (h1 : ∀ x, R x a) (h2 : ∀ x, R a x) :
    (l.set i a).Pairwise R := by
  induction l generalizing i with
  | nil => simpa using hp
  | cons x t ih =>
    cases i with
    | zero =>
      rw [List.set_cons_zero]
      rw [List.pairwise_cons] at hp ⊢
      exact ⟨fun y _ => h2 y, hp.2⟩
    | succ j =>
      rw [List.set_cons_succ]
      rw [List.pairwise_cons] at hp ⊢
      refine ⟨fun y hy => ?_, ih j hp.2⟩
      rcases List.mem_or_eq_of_mem_set hy with hmem | rfl
      · exact hp.1 y hmem
      · exact h1 x

/-- `WfLedger` is preserved by a successful `cancelAppointmentHandler`. -/
theorem wfLedger_cancelAppointmentHandler (st st' : LedgerState) (bIdx : Nat)
    (reason : BookingStatus) (user : Nat) (hwf : WfLedger st)
    (h : cancelAppointmentHandler st bIdx reason user = .ok st') : WfLedger st' := by
  obtain ⟨hreason, b, hb, hst'⟩ := cancelAppointmentHandler_ok st st' bIdx reason user h
  obtain ⟨hnodup, hslots, hfk, hpair⟩ := hwf
  subst hst'
  set b' : BookingRec := { b with status := reason, updatedBy := some user } with hbPrimeDef
  have hb'inactive : isActive b' = false :=
    isActive_false_of_cancelled b' (by simpa [hbPrimeDef] using hreason)
  have hbmem : b ∈ st.bookings := List.getElem?_mem hb
  have hcount_set : ∀ sid, countActive (st.bookings.set bIdx b') sid + bookingContrib b sid =
      countActive st.bookings sid + bookingContrib b' sid :=
    fun sid => countActive_set _ _ _ _ hb sid
  have hcontribb' : ∀ sid, bookingContrib b' sid = 0 := by
    intro sid
    simp [bookingContrib, hb'inactive]
  have hfk' : ∀ x ∈ st.bookings.set bIdx b', ∃ s ∈ st.slots, s.sid = x.tokenSlot := by
    intro x hx
    rcases List.mem_or_eq_of_mem_set hx with hmem | rfl
    · exact hfk x hmem
    · exact hfk b hbmem
  have hpair' : (st.bookings.set bIdx b').Pairwise (fun b1 b2 =>
      ¬(isActive b1 = true ∧ isActive b2 = true ∧
        b1.tokenSlot = b2.tokenSlot ∧ b1.patient = b2.patient)) := by
    refine pairwise_set_of_forall _ _ _ _ hpair ?_ ?_
    · rintro x ⟨_, hx, _⟩
      rw [hb'inactive] at hx
      exact absurd hx (by simp)
    · rintro x ⟨hx, _⟩
      rw [hb'inactive] at hx
      exact absurd hx (by simp)
  by_cases hact : isActive b = true
  · rw [if_pos hact]
    refine ⟨?_, ?_, ?_, ?_⟩
    · simpa [updateSlotAllocated_map_sid] using hnodup
    · intro s' hs'
      dsimp only at hs'
      rw [mem_updateSlotAllocated] at hs'
      obtain ⟨s, hs, hs'eq⟩ := hs'
      obtain ⟨h0, hle, hcount⟩ := hslots s hs
      by_cases hsid : s.sid = b.tokenSlot
      · have hcontribb : bookingContrib b s.sid = 1 := by
          simp [bookingContrib, hsid.symm, hact]
        have hcs := hcount_set s.sid
        rw [hcontribb, hcontribb'] at hcs
        rw [if_pos hsid] at hs'eq
        subst hs'eq
        have hle1 : 1 ≤ countActive st.bookings s.sid := by
          have hc := bookingContrib_le_countActive st.bookings bIdx b hb s.sid
          rw [hcontribb] at hc
          exact hc
        refine ⟨?_, ?_, ?_⟩
        · show (0:Int) ≤ s.allocated + (-1)
          omega
        · show s.allocated + (-1) ≤ s.tokensPerSlot
          omega
        · show (countActive (st.bookings.set bIdx b') s.sid : Int) ≤
            s.allocated + (-1)
          omega
      · have hcontribb : bookingContrib b s.sid = 0 := by
          simp [bookingContrib]
          intro heq
          exact absurd heq.symm hsid
        have hcs := hcount_set s.sid
        rw [hcontribb, hcontribb'] at hcs
        rw [if_neg hsid] at hs'eq
        rw [hs'eq]
        refine ⟨h0, hle, ?_⟩
        show (countActive (st.bookings.set bIdx b') s.sid : Int) ≤ s.allocated
        omega
    · intro x hx
      dsimp only at hx
      obtain ⟨s, hs, hssid⟩ := hfk' x hx
      refine ⟨if s.sid = b.tokenSlot then { s with allocated := s.allocated + (-1) }
              else s, ?_, ?_⟩
      · rw [mem_updateSlotAllocated]; exact ⟨s, hs, rfl⟩
      · by_cases hcase : s.sid = b.tokenSlot
        · rw [if_pos hcase]; exact hssid
        · rw [if_neg hcase]; exact hssid
    · exact hpair'
  · rw [if_neg hact]
    have hcontribb : ∀ sid, bookingContrib b sid = 0 := by
      intro sid
      simp only [Bool.not_eq_true] at hact
      simp [bookingContrib, hact]
    refine ⟨hnodup, ?_, hfk', hpair'⟩
    intro s' hs'
    dsimp only at hs'
    obtain ⟨h0, hle, hcount⟩ := hslots s' hs'
    have hcs := hcount_set s'.sid
    rw [hcontribb, hcontribb'] at hcs
    refine ⟨h0, hle, ?_⟩
    show (countActive (st.bookings.set bIdx b') s'.sid : Int) ≤ s'.allocated
    omega

/-- `WfLedger` is preserved by a successful `reschedule` (cancel followed by
a create on the stale `new_slot` instance inside one transaction): the
cancel phase can only have decremented the row the instance was fetched
from, so the instance dominates it. -/
theorem wfLedger_reschedule (st st' : LedgerState) (bIdx newSlotId user : Nat)
    (now : Int) (hwf : WfLedger st)
    (h : reschedule st bIdx newSlotId user now = .ok st') : WfLedger st' := by
  have hnodup0 := hwf.1
  unfold reschedule at h
  rcases hb : st.bookings[bIdx]? with _ | b
  · rw [hb] at h; exact absurd h (by simp)
  · rw [hb] at h
    dsimp only at h
    rcases hold : findSlot st b.tokenSlot with _ | oldSlot <;> rw [hold] at h
    · exact absurd h (by simp)
    rcases hnew : findSlot st newSlotId with _ | newSlot <;> rw [hnew] at h
    · exact absurd h (by simp)
    dsimp only at h
    split_ifs at h
    rcases hcancel : cancelAppointmentHandler st bIdx .rescheduled user with e | st1 <;>
      rw [hcancel] at h
    · exact absurd h (by simp)
    · have hwf1 : WfLedger st1 :=
        wfLedger_cancelAppointmentHandler st st1 bIdx .rescheduled user hwf hcancel
      obtain ⟨hnmem, hnsid⟩ := findSlot_mem st newSlotId newSlot hnew
      obtain ⟨_, b0, hb0, hst1⟩ :=
        cancelAppointmentHandler_ok st st1 bIdx .rescheduled user hcancel
      rw [hb] at hb0
      have hb0b : b0 = b := (Option.some.inj hb0).symm
      rw [hb0b] at hst1
      have hrow : ∀ row ∈ st1.slots, row.sid = newSlot.sid →
          row.allocated ≤ newSlot.allocated ∧
          row.tokensPerSlot = newSlot.tokensPerSlot := by
        intro row hrowmem hrowsid
        rw [hst1] at hrowmem
        dsimp only at hrowmem
        by_cases hact : isActive b = true
        · rw [if_pos hact] at hrowmem
          rw [mem_updateSlotAllocated] at hrowmem
          obtain ⟨s, hs, hseq⟩ := hrowmem
          by_cases hsid : s.sid = b.tokenSlot
          · rw [if_pos hsid] at hseq
            rw [hseq] at hrowsid ⊢
            have hssid : s.sid = newSlot.sid := by simpa using hrowsid
            have hsn : s = newSlot := sid_unique st hnodup0 s newSlot hs hnmem hssid
            rw [hsn]
            exact ⟨by show newSlot.allocated + (-1) ≤ newSlot.allocated; omega, rfl⟩
          · rw [if_neg hsid] at hseq
            rw [hseq] at hrowsid ⊢
            have hsn : s = newSlot := sid_unique st hnodup0 s newSlot hs hnmem hrowsid
            rw [hsn]
            exact ⟨le_refl _, rfl⟩
        · rw [if_neg hact] at hrowmem
          have hsn : row = newSlot :=
            sid_unique st hnodup0 row newSlot hrowmem hnmem hrowsid
          rw [hsn]
          exact ⟨le_refl _, rfl⟩
      have hex : ∃ row ∈ st1.slots, row.sid = newSlot.sid := by
        rw [hst1]
        dsimp only
        by_cases hact : isActive b = true
        · rw [if_pos hact]
          refine ⟨if newSlot.sid = b.tokenSlot
              then { newSlot with allocated := newSlot.allocated + (-1) }
              else newSlot, ?_, ?_⟩
          · rw [mem_updateSlotAllocated]; exact ⟨newSlot, hnmem, rfl⟩
          · by_cases hc : newSlot.sid = b.tokenSlot <;> simp [hc]
        · rw [if_neg hact]
          exact ⟨newSlot, hnmem, rfl⟩
      exact wfLedger_lockCreateAppointmentInstance st1 st' newSlot b.patient user
        b.reasonForVisit now hwf1 hrow hex h

/-- One observable transition of the scheduling state: a successful booking
operation, or the materializer adding a fresh slot with `allocated = 0`
(`TokenSlot.objects.create` in `get_slots_for_day_handler`). -/
inductive Step : LedgerState → LedgerState → Prop where
  | create {st st' : LedgerState} (sid patient createdBy : Nat)
      (reasonForVisit : String) (now : Int)
      (h : lockCreateAppointment st sid patient createdBy reasonForVisit now = .ok st') :
      Step st st'
  | cancel {st st' : LedgerState} (bIdx : Nat) (reason : BookingStatus) (user : Nat)
      (h : cancelAppointmentHandler st bIdx reason user = .ok st') : Step st st'
  | resched {st st' : LedgerState} (bIdx newSlotId user : Nat) (now : Int)
      (h : reschedule st bIdx newSlotId user now = .ok st') : Step st st'
  | materialize {st : LedgerState} (s : SlotRec) (halloc : s.allocated = 0)
      (htok : 0 ≤ s.tokensPerSlot) (hfresh : s.sid ∉ st.slots.map (fun t => t.sid)) :
      Step st { st with slots := st.slots ++ [s] }

/-- Reachability through the public operations. -/
def Reach (st st' : LedgerState) : Prop := Relation.ReflTransGen Step st st'

/-- A freshly materialized state: no bookings yet, distinct slot ids, every
slot has `allocated = 0` and a nonnegative capacity. -/
def InitLedger (st : LedgerState) : Prop :=
  st.bookings = [] ∧ (st.slots.map (fun s => s.sid)).Nodup ∧
  ∀ s ∈ st.slots, s.allocated = 0 ∧ 0 ≤ s.tokensPerSlot

theorem wfLedger_init (st : LedgerState) (h : InitLedger st) : WfLedger st := by
  obtain ⟨hbook, hnodup, hslots⟩ := h
  refine ⟨hnodup, ?_, ?_, ?_⟩
  · intro s hs
    obtain ⟨h0, htok⟩ := hslots s hs
    rw [hbook, h0]
    exact ⟨le_refl 0, htok, by simp [countActive_nil]⟩
  · intro b hb
    rw [hbook] at hb
    exact absurd hb (by simp)
  · rw [hbook]
    exact List.Pairwise.nil

theorem wfLedger_materialize (st : LedgerState) (s : SlotRec)
    (hwf : WfLedger st) (halloc : s.allocated = 0) (htok : 0 ≤ s.tokensPerSlot)
    (hfresh : s.sid ∉ st.slots.map (fun t => t.sid)) :
    WfLedger { st with slots := st.slots ++ [s] } := by
  obtain ⟨hnodup, hslots, hfk, hpair⟩ := hwf
  refine ⟨?_, ?_, ?_, hpair⟩
  · dsimp only
    rw [List.map_append]
    rw [List.nodup_append]
    exact ⟨hnodup, List.nodup_singleton _, by simpa using hfresh⟩
  · intro t ht
    dsimp only at ht
    rcases List.mem_append.mp ht with ht | ht
    · exact hslots t ht
    · have hts : t = s := by simpa using ht
      subst hts
      have hcount : countActive st.bookings t.sid = 0 := by
        rcases Nat.eq_zero_or_pos (countActive st.bookings t.sid) with h0 | hpos
        · exact h0
        · exfalso
          have : ∃ b ∈ st.bookings.filter
              (fun b => b.tokenSlot = t.sid && isActive b), True := by
            rcases List.length_pos_iff_exists_mem.mp hpos with ⟨b, hbmem⟩
            exact ⟨b, hbmem, trivial⟩
          obtain ⟨b, hbmem, _⟩ := this
          obtain ⟨hbin, hbprop⟩ := List.mem_filter.mp hbmem
          obtain ⟨u, hu, husid⟩ := hfk b hbin
          apply hfresh
          rw [List.mem_map]
          refine ⟨u, hu, ?_⟩
          have : b.tokenSlot = t.sid := by
            simp only [Bool.and_eq_true, decide_eq_true_eq] at hbprop
            exact hbprop.1
          omega
      rw [halloc, hcount]
      exact ⟨le_refl 0, htok, by simp⟩
  · intro b hb
    dsimp only at hb
    obtain ⟨u, hu, husid⟩ := hfk b hb
    exact ⟨u, List.mem_append.mpr (Or.inl hu), husid⟩

theorem wfLedger_step (st st' : LedgerState) (hwf : WfLedger st) (h : Step st st') :
    WfLedger st' := by
  cases h with
  | create sid patient createdBy reasonForVisit now h =>
    exact wfLedger_lockCreateAppointment _ _ sid patient createdBy reasonForVisit now hwf h
  | cancel bIdx reason user h =>
    exact wfLedger_cancelAppointmentHandler _ _ bIdx reason user hwf h
  | resched bIdx newSlotId user now h =>
    exact wfLedger_reschedule _ _ bIdx newSlotId user now hwf h
  | materialize s halloc htok hfresh =>
    exact wfLedger_materialize _ s hwf halloc htok hfresh

theorem wfLedger_reach (st st' : LedgerState) (hwf : WfLedger st) (h : Reach st st') :
    WfLedger st' := by
  induction h with
  | refl => exact hwf
  | tail _ hstep ih => exact wfLedger_step _ _ ih hstep

/-- C1 (amended): in every state reachable through the public booking
operations and slot materialization from a freshly materialized state (no
bookings, all slots with `allocated = 0`), every slot satisfies
`0 ≤ allocated ≤ tokens_per_slot`, and the number of non-cancelled bookings
on the slot never exceeds `allocated`.  The claimed equality between
`allocated` and that number fails: a same-slot reschedule writes the stale
pre-cancel counter plus one back, leaving `allocated` strictly above the
booking count (see the counterexample). -/
theorem c1_capacity_invariant (init st : LedgerState)
    (hinit : InitLedger init) (hreach : Reach init st) :
    ∀ s ∈ st.slots, 0 ≤ s.allocated ∧ s.allocated ≤ s.tokensPerSlot ∧
      (countActive st.bookings s.sid : Int) ≤ s.allocated :=
  (wfLedger_reach init st (wfLedger_init init hinit) hreach).2.1

/-- C1, counterexample to the claim as stated: materialize a slot with two
tokens, book it, then reschedule the booking onto its own slot.  The
source's create phase reads the `new_slot` instance fetched before the
cancel (booking.py:138), so its save writes `1 + 1 = 2` over the cancel
phase's decrement: the reachable final state has `allocated = 2` but only
one non-cancelled booking, refuting `allocated = #non-cancelled`. -/
theorem c1_counterexample :
    let st0 : LedgerState := { slots := [], bookings := [] }
    let st3 : LedgerState :=
      { slots := [⟨1, 0, 100, 2, 2⟩],
        bookings := [⟨1, 7, .rescheduled, 9, some 9, "visit"⟩,
                     ⟨1, 7, .booked, 9, none, "visit"⟩] }
    InitLedger st0 ∧ Reach st0 st3 ∧
    ∃ s ∈ st3.slots, ¬ s.allocated = (countActive st3.bookings s.sid : Int) := by
  intro st0 st3
  refine ⟨⟨rfl, by simp, by simp⟩, ?_, ⟨1, 0, 100, 2, 2⟩, by simp, by decide⟩
  have h1 : Step st0 { slots := [⟨1, 0, 100, 2, 0⟩], bookings := [] } :=
    Step.materialize ⟨1, 0, 100, 2, 0⟩ rfl (by decide) (by simp)
  have h2 : Step { slots := [⟨1, 0, 100, 2, 0⟩], bookings := [] }
      { slots := [⟨1, 0, 100, 2, 1⟩],
        bookings := [⟨1, 7, .booked, 9, none, "visit"⟩] } :=
    Step.create 1 7 9 "visit" 50 (by rfl)
  have h3 : Step
      { slots := [⟨1, 0, 100, 2, 1⟩],
        bookings := [⟨1, 7, .booked, 9, none, "visit"⟩] } st3 :=
    Step.resched 0 1 9 50 (by rfl)
  exact Relation.ReflTransGen.tail
    (Relation.ReflTransGen.tail (Relation.ReflTransGen.single h1) h2) h3

/-- Witness for `c1_capacity_invariant`: a concrete two-step run (materialize
a slot, then book it) from an empty state. -/
theorem c1_capacity_invariant_witness :
    let st0 : LedgerState := { slots := [], bookings := [] }
    let st1 : LedgerState := { slots := [⟨1, 0, 100, 2, 0⟩], bookings := [] }
    let st2 : LedgerState :=
      { slots := [⟨1, 0, 100, 2, 1⟩],
        bookings := [⟨1, 7, .booked, 9, none, "visit"⟩] }
    ∀ s ∈ st2.slots, 0 ≤ s.allocated ∧ s.allocated ≤ s.tokensPerSlot ∧
      (countActive st2.bookings s.sid : Int) ≤ s.allocated := by
  intro st0 st1 st2
  refine c1_capacity_invariant st0 st2 (by refine ⟨rfl, by simp, ?_⟩; decide) ?_
  have h1 : Step st0 st1 :=
    Step.materialize ⟨1, 0, 100, 2, 0⟩ rfl (by decide) (by simp)
  have h2 : Step st1 st2 := Step.create 1 7 9 "visit" 50 (by rfl)
  exact Relation.ReflTransGen.tail (Relation.ReflTransGen.single h1) h2

theorem find?_map_sid (l : List SlotRec) (sid sid' : Nat) (delta : Int) :
    (l.map (fun s => if s.sid = sid then { s with allocated := s.allocated + delta }
        else s)).find? (fun s => s.sid = sid') =
      (l.find? (fun s => s.sid = sid')).map
        (fun s => if s.sid = sid then { s with allocated := s.allocated + delta }
          else s) := by
  induction l with
  | nil => rfl
  | cons a t ih =>
    by_cases ha : a.sid = sid'
    · have h1 : ((fun s : SlotRec => if s.sid = sid
          then { s with allocated := s.allocated + delta } else s) a).sid = a.sid := by
        by_cases hc : a.sid = sid <;> simp [hc]
      rw [List.map_cons, List.find?_cons_of_pos, List.find?_cons_of_pos]
      · rfl
      · simpa using ha
      · simpa using h1.trans ha
    · have h1 : ((fun s : SlotRec => if s.sid = sid
          then { s with allocated := s.allocated + delta } else s) a).sid = a.sid := by
        by_cases hc : a.sid = sid <;> simp [hc]
      rw [List.map_cons, List.find?_cons_of_neg, List.find?_cons_of_neg, ih]
      · simpa using ha
      · simpa using h1.trans_ne ha

theorem findSlot_updateSlotAllocated (st : LedgerState) (sid sid' : Nat) (delta : Int) :
    findSlot (updateSlotAllocated st sid delta) sid' =
      (findSlot st sid').map
        (fun s => if s.sid = sid then { s with allocated := s.allocated + delta }
          else s) :=
  find?_map_sid st.slots sid sid' delta

theorem find?_map_sid_write (l : List SlotRec) (sid sid' : Nat) (value : Int) :
    (l.map (fun s => if s.sid = sid then { s with allocated := value } else s)).find?
        (fun s => s.sid = sid') =
      (l.find? (fun s => s.sid = sid')).map
        (fun s => if s.sid = sid then { s with allocated := value } else s) := by
  induction l with
  | nil => rfl
  | cons a t ih =>
    by_cases ha : a.sid = sid'
    · have h1 : ((fun s : SlotRec => if s.sid = sid
          then { s with allocated := value } else s) a).sid = a.sid := by
        by_cases hc : a.sid = sid <;> simp [hc]
      rw [List.map_cons, List.find?_cons_of_pos, List.find?_cons_of_pos]
      · rfl
      · simpa using ha
      · simpa using h1.trans ha
    · have h1 : ((fun s : SlotRec => if s.sid = sid
          then { s with allocated := value } else s) a).sid = a.sid := by
        by_cases hc : a.sid = sid <;> simp [hc]
      rw [List.map_cons, List.find?_cons_of_neg, List.find?_cons_of_neg, ih]
      · simpa using ha
      · simpa using h1.trans_ne ha

/-- Writing an absolute counter after an in-place delta on the same id
erases the delta. -/
theorem map_write_after_update (l : List SlotRec) (sid : Nat) (delta value : Int) :
    (l.map (fun s => if s.sid = sid then { s with allocated := s.allocated + delta }
        else s)).map
      (fun s => if s.sid = sid then { s with allocated := value } else s) =
    l.map (fun s => if s.sid = sid then { s with allocated := value } else s) := by
  rw [List.map_map]
  refine List.map_congr_left (fun s _ => ?_)
  by_cases h : s.sid = sid
  · simp only [Function.comp_apply, if_pos h]
  · simp only [Function.comp_apply, if_neg h]

/-- With unique slot ids, writing `row.allocated + 1` for the row the id
denotes is the same as incrementing in place. -/
theorem write_eq_update_of_nodup (st : LedgerState) (sid : Nat) (r : SlotRec)
    (hnodup : (st.slots.map (fun s => s.sid)).Nodup)
    (hfind : findSlot st sid = some r) :
    (writeSlotAllocated st sid (r.allocated + 1)).slots =
      (updateSlotAllocated st sid 1).slots := by
  obtain ⟨hrmem, hrsid⟩ := findSlot_mem st sid r hfind
  rw [writeSlotAllocated_slots, updateSlotAllocated_slots]
  refine List.map_congr_left (fun s hs => ?_)
  by_cases h : s.sid = sid
  · rw [if_pos h, if_pos h]
    have hsr : s = r := sid_unique st hnodup s r hs hrmem (by omega)
    rw [hsr]
  · rw [if_neg h, if_neg h]

/-- After cancelling the only non-cancelled booking of a (slot, patient)
pair, no non-cancelled booking for that pair remains. -/
theorem no_other_active (bookings : List BookingRec) (bIdx : Nat) (b b' : BookingRec)
    (hb : bookings[bIdx]? = some b)
    (hpair : bookings.Pairwise (fun b1 b2 =>
      ¬(isActive b1 = true ∧ isActive b2 = true ∧
        b1.tokenSlot = b2.tokenSlot ∧ b1.patient = b2.patient)))
    (hactive : isActive b = true) (hb' : isActive b' = false) :
    hasActiveBooking (bookings.set bIdx b') b.tokenSlot b.patient = false := by
  induction bookings generalizing bIdx with
  | nil => rfl
  | cons a t ih =>
    rw [List.pairwise_cons] at hpair
    cases bIdx with
    | zero =>
      simp only [List.getElem?_cons_zero, Option.some.injEq] at hb
      subst hb
      rw [List.set_cons_zero]
      unfold hasActiveBooking
      rw [List.any_cons]
      rw [Bool.or_eq_false_iff]
      constructor
      · simp [hb']
      · rw [List.any_eq_false]
        intro y hy
        intro hcontra
        simp only [Bool.and_eq_true, decide_eq_true_eq] at hcontra
        exact hpair.1 y hy ⟨hactive, hcontra.2, hcontra.1.1.symm, hcontra.1.2.symm⟩
    | succ j =>
      simp only [List.getElem?_cons_succ] at hb
      rw [List.set_cons_succ]
      unfold hasActiveBooking
      rw [List.any_cons]
      rw [Bool.or_eq_false_iff]
      constructor
      · have hbmem : b ∈ t := List.getElem?_mem hb
        rw [Bool.and_eq_false_iff, Bool.and_eq_false_iff]
        by_cases h1 : a.tokenSlot = b.tokenSlot
        · by_cases h2 : a.patient = b.patient
          · right
            rcases hact : isActive a with _ | _
            · rfl
            · exact absurd ⟨hact, hactive, h1, h2⟩ (hpair.1 b hbmem)
          · left; right; simpa using h2
        · left; left; simpa using h1
      · exact ih j hb hpair.2

/-- C10 (amended): rescheduling a non-cancelled booking onto its own
(non-expired) slot does NOT behave as an identity on the slot's counter.
The create phase runs on the `new_slot` instance fetched before the cancel,
so its checks and its write use the pre-cancel `allocated`: when the slot is
strictly below capacity the operation succeeds, the old booking becomes
`rescheduled`, a new `booked` booking is appended — and the slot ends with
`allocated = pre-cancel allocated + 1`, the stale write clobbering the
cancel phase's decrement; when the slot is exactly full the operation fails
with `SlotFull` even though the cancel phase had just freed a token. -/
theorem c10_reschedule_same_slot (st : LedgerState) (bIdx user : Nat) (now : Int)
    (b : BookingRec) (s : SlotRec)
    (hwf : WfLedger st)
    (hb : st.bookings[bIdx]? = some b)
    (hactive : isActive b = true)
    (hs : findSlot st b.tokenSlot = some s)
    (hnotpast : ¬s.startDatetime < now) :
    (s.allocated < s.tokensPerSlot →
      ∃ st', reschedule st bIdx b.tokenSlot user now = .ok st' ∧
        st'.bookings = (st.bookings.set bIdx
            { b with status := .rescheduled, updatedBy := some user }) ++
          [⟨b.tokenSlot, b.patient, .booked, user, none, b.reasonForVisit⟩] ∧
        st'.slots = (writeSlotAllocated st b.tokenSlot (s.allocated + 1)).slots ∧
        findSlot st' b.tokenSlot = some { s with allocated := s.allocated + 1 }) ∧
    (s.tokensPerSlot ≤ s.allocated →
      reschedule st bIdx b.tokenSlot user now = .error .slotFull) := by
  obtain ⟨hsmem, hssid⟩ := findSlot_mem st b.tokenSlot s hs
  obtain ⟨hnodup, hslots, hfk, hpair⟩ := hwf
  set b' : BookingRec := { b with status := .rescheduled, updatedBy := some user }
    with hbPrimeDef
  set st1 : LedgerState :=
    { slots := (updateSlotAllocated st b.tokenSlot (-1)).slots,
      bookings := st.bookings.set bIdx b' } with hst1def
  have hcancel : cancelAppointmentHandler st bIdx .rescheduled user = .ok st1 := by
    simp [cancelAppointmentHandler, cancelledStatusChoices, hb, hactive, hst1def,
      updateSlotAllocated_bookings]
  have hre : reschedule st bIdx b.tokenSlot user now =
      lockCreateAppointmentInstance st1 s b.patient user b.reasonForVisit now := by
    unfold reschedule
    rw [hb]
    dsimp only
    rw [hs]
    dsimp only
    rw [if_pos rfl, hcancel]
  constructor
  · intro hcap
    have hb'inactive : isActive b' = false := rfl
    have hdup : hasActiveBooking st1.bookings b.tokenSlot b.patient = false := by
      show hasActiveBooking (st.bookings.set bIdx b') b.tokenSlot b.patient = false
      exact no_other_active st.bookings bIdx b b' hb hpair hactive hb'inactive
    have hcreate : lockCreateAppointmentInstance st1 s b.patient user
        b.reasonForVisit now =
        .ok { slots := (writeSlotAllocated st1 s.sid (s.allocated + 1)).slots,
              bookings := st1.bookings ++
                [⟨s.sid, b.patient, .booked, user, none, b.reasonForVisit⟩] } := by
      unfold lockCreateAppointmentInstance
      rw [if_neg hnotpast, if_neg (by omega),
        if_neg (by rw [hssid, hdup]; simp)]
      rfl
    refine ⟨{ slots := (writeSlotAllocated st1 s.sid (s.allocated + 1)).slots,
              bookings := st1.bookings ++
                [⟨s.sid, b.patient, .booked, user, none, b.reasonForVisit⟩] },
      ?_, ?_, ?_, ?_⟩
    · rw [hre]
      exact hcreate
    · show st1.bookings ++ [⟨s.sid, b.patient, .booked, user, none,
        b.reasonForVisit⟩] = _
      rw [hssid, hst1def]
    · rw [hssid, hst1def]
      show (st.slots.map (fun t => if t.sid = b.tokenSlot
          then { t with allocated := t.allocated + (-1) } else t)).map
          (fun t => if t.sid = b.tokenSlot
            then { t with allocated := s.allocated + 1 } else t) =
        st.slots.map (fun t => if t.sid = b.tokenSlot
          then { t with allocated := s.allocated + 1 } else t)
      exact map_write_after_update st.slots b.tokenSlot (-1) (s.allocated + 1)
    · show ((st1.slots.map (fun t => if t.sid = s.sid
          then { t with allocated := s.allocated + 1 } else t)).find?
          (fun t => t.sid = b.tokenSlot)) = some { s with allocated := s.allocated + 1 }
      rw [find?_map_sid_write]
      have hf1 : st1.slots.find? (fun t => t.sid = b.tokenSlot) =
          some { s with allocated := s.allocated + (-1) } := by
        rw [hst1def]
        show findSlot (updateSlotAllocated st b.tokenSlot (-1)) b.tokenSlot = _
        rw [findSlot_updateSlotAllocated, hs]
        simp [hssid]
      rw [hf1]
      simp [hssid]
  · intro hfull
    rw [hre]
    unfold lockCreateAppointmentInstance
    rw [if_neg hnotpast, if_pos (by omega : s.allocated ≥ s.tokensPerSlot)]

/-- C10, counterexample to the implicit claim: a booked booking on a slot
that is exactly full (`tokens_per_slot = allocated = 1`), rescheduled onto
its own non-expired slot, fails with `SlotFull` — the stale instance still
carries `allocated = 1` although the cancel phase just decremented the
row — instead of succeeding with `allocated` unchanged. -/
theorem c10_counterexample :
    let st : LedgerState :=
      { slots := [⟨1, 0, 100, 1, 1⟩],
        bookings := [⟨1, 7, .booked, 9, none, "visit"⟩] }
    isActive ⟨1, 7, .booked, 9, none, "visit"⟩ = true ∧
    ¬(100 : Int) < 50 ∧
    reschedule st 0 1 9 50 = .error .slotFull := ⟨rfl, by decide, rfl⟩

/-- Witness for `c10_reschedule_same_slot`: one booked booking on a slot
with capacity 2 and one token allocated; the same-slot reschedule succeeds
and the slot ends with `allocated = 2` — a net increment. -/
theorem c10_reschedule_same_slot_witness :
    let st : LedgerState :=
      { slots := [⟨1, 0, 100, 2, 1⟩],
        bookings := [⟨1, 7, .booked, 9, none, "visit"⟩] }
    ∃ st', reschedule st 0 1 9 50 = .ok st' ∧
      st'.bookings = (st.bookings.set 0 ⟨1, 7, .rescheduled, 9, some 9, "visit"⟩) ++
        [⟨1, 7, .booked, 9, none, "visit"⟩] ∧
      st'.slots = (writeSlotAllocated st 1 (1 + 1)).slots ∧
      findSlot st' 1 = some ⟨1, 0, 100, 2, 1 + 1⟩ := by
  intro st
  exact (c10_reschedule_same_slot st 0 9 50 ⟨1, 7, .booked, 9, none, "visit"⟩
    ⟨1, 0, 100, 2, 1⟩
    (by refine ⟨by simp, ?_, ?_, ?_⟩ <;> decide)
    (by decide) (by decide) (by decide) (by decide)).1 (by decide)

theorem lockCreateAppointment_error (st : LedgerState) (sid patient createdBy : Nat)
    (reasonForVisit : String) (now : Int) (ts : SlotRec) (e : BookingError)
    (hfind : findSlot st sid = some ts)
    (h : lockCreateAppointment st sid patient createdBy reasonForVisit now = .error e) :
    e = .slotExpired ∨ e = .slotFull ∨ e = .duplicateBooking := by
  unfold lockCreateAppointment at h
  rw [hfind] at h
  dsimp only at h
  split_ifs at h with h1 h2 h3
  · exact Or.inl (Except.error.inj h).symm
  · exact Or.inr (Or.inl (Except.error.inj h).symm)
  · exact Or.inr (Or.inr (Except.error.inj h).symm)

/-- C8 (amended): rescheduling a booking that is not already cancelled onto
a DIFFERENT slot of the same resource (with unique slot ids) either
succeeds — the booking becomes `rescheduled`, a `booked` booking for the
same patient and reason appears on the new slot, the old slot is
decremented and the new slot incremented — or fails with one of
`SlotExpired`, `SlotFull`, `DuplicateBooking`, and on failure the
transaction rolls back, leaving the original state unchanged (encoded by
the error branch carrying no state).  For the booking's own slot the stale
`new_slot` instance breaks both branches (see C10); for a distinct slot the
instance's fields agree with the row, so the claimed shape holds. -/
theorem c8_reschedule_atomicity (st : LedgerState) (bIdx newSlotId user : Nat)
    (now : Int) (b : BookingRec) (oldS newS : SlotRec)
    (hnodup : (st.slots.map (fun s => s.sid)).Nodup)
    (hb : st.bookings[bIdx]? = some b)
    (hactive : isActive b = true)
    (hold : findSlot st b.tokenSlot = some oldS)
    (hnew : findSlot st newSlotId = some newS)
    (hres : newS.resource = oldS.resource)
    (hdiff : newSlotId ≠ b.tokenSlot) :
    (∃ st', reschedule st bIdx newSlotId user now = .ok st' ∧
      st'.bookings = (st.bookings.set bIdx
          { b with status := .rescheduled, updatedBy := some user }) ++
        [⟨newSlotId, b.patient, .booked, user, none, b.reasonForVisit⟩] ∧
      st'.slots = (updateSlotAllocated (updateSlotAllocated st b.tokenSlot (-1))
          newSlotId 1).slots) ∨
    (∃ e, (e = BookingError.slotExpired ∨ e = BookingError.slotFull ∨
        e = BookingError.duplicateBooking) ∧
      reschedule st bIdx newSlotId user now = .error e) := by
  have hnsid : newS.sid = newSlotId := (findSlot_mem st newSlotId newS hnew).2
  set b' : BookingRec := { b with status := .rescheduled, updatedBy := some user }
    with hbPrimeDef
  set st1 : LedgerState :=
    { slots := (updateSlotAllocated st b.tokenSlot (-1)).slots,
      bookings := st.bookings.set bIdx b' } with hst1def
  have hcancel : cancelAppointmentHandler st bIdx .rescheduled user = .ok st1 := by
    simp [cancelAppointmentHandler, cancelledStatusChoices, hb, hactive, hst1def,
      updateSlotAllocated_bookings]
  have hre : reschedule st bIdx newSlotId user now =
      lockCreateAppointmentInstance st1 newS b.patient user b.reasonForVisit now := by
    unfold reschedule
    rw [hb]
    dsimp only
    rw [hold, hnew]
    dsimp only
    rw [if_pos hres, hcancel]
  rcases hc : lockCreateAppointmentInstance st1 newS b.patient user
      b.reasonForVisit now with e | st2
  · right
    refine ⟨e, ?_, by rw [hre, hc]⟩
    exact lockCreateAppointmentInstance_error st1 newS b.patient user
      b.reasonForVisit now e hc
  · left
    obtain ⟨_, _, _, hst2⟩ :=
      lockCreateAppointmentInstance_ok st1 st2 newS b.patient user
        b.reasonForVisit now hc
    subst hst2
    have hfind1 : findSlot st1 newSlotId = some newS := by
      rw [hst1def]
      show findSlot (updateSlotAllocated st b.tokenSlot (-1)) newSlotId = _
      rw [findSlot_updateSlotAllocated, hnew]
      have hne : ¬newS.sid = b.tokenSlot := by rw [hnsid]; exact hdiff
      simp [hne]
    have hnodup1 : (st1.slots.map (fun s => s.sid)).Nodup := by
      rw [hst1def]
      show ((updateSlotAllocated st b.tokenSlot (-1)).slots.map
        (fun s => s.sid)).Nodup
      rw [updateSlotAllocated_map_sid]
      exact hnodup
    refine ⟨_, by rw [hre, hc], ?_, ?_⟩
    · show st1.bookings ++ [⟨newS.sid, b.patient, .booked, user, none,
        b.reasonForVisit⟩] = _
      rw [hnsid, hst1def]
    · show (writeSlotAllocated st1 newS.sid (newS.allocated + 1)).slots = _
      rw [hnsid]
      rw [write_eq_update_of_nodup st1 newSlotId newS hnodup1 hfind1]
      rw [hst1def]
      rfl

/-- Counterexample to C8 as stated: rescheduling an already-cancelled
booking succeeds without decrementing the old slot (it was never counted),
so neither branch of the claimed dichotomy holds — the operation succeeds,
yet the old slot's `allocated` stays 0 instead of dropping by 1. -/
theorem c8_counterexample :
    let st : LedgerState :=
      { slots := [⟨1, 0, 100, 5, 0⟩, ⟨2, 0, 100, 5, 0⟩],
        bookings := [⟨1, 7, .cancelled, 9, some 9, "visit"⟩] }
    reschedule st 0 2 9 50 =
      .ok { slots := [⟨1, 0, 100, 5, 0⟩, ⟨2, 0, 100, 5, 1⟩],
            bookings := [⟨1, 7, .rescheduled, 9, some 9, "visit"⟩,
                         ⟨2, 7, .booked, 9, none, "visit"⟩] } ∧
    ¬(0 : Int) - 1 = 0 := by
  exact ⟨by rfl, by decide⟩

/-- Witness for `c8_reschedule_atomicity`: a concrete non-cancelled booking
rescheduled to a second slot of the same resource. -/
theorem c8_reschedule_atomicity_witness :
    let st : LedgerState :=
      { slots := [⟨1, 0, 100, 5, 1⟩, ⟨2, 0, 100, 5, 0⟩],
        bookings := [⟨1, 7, .booked, 9, none, "visit"⟩] }
    (∃ st', reschedule st 0 2 9 50 = .ok st' ∧
      st'.bookings = (st.bookings.set 0 ⟨1, 7, .rescheduled, 9, some 9, "visit"⟩) ++
        [⟨2, 7, .booked, 9, none, "visit"⟩] ∧
      st'.slots = (updateSlotAllocated (updateSlotAllocated st 1 (-1)) 2 1).slots) ∨
    (∃ e, (e = BookingError.slotExpired ∨ e = BookingError.slotFull ∨
        e = BookingError.duplicateBooking) ∧
      reschedule st 0 2 9 50 = .error e) := by
  intro st
  exact c8_reschedule_atomicity st 0 2 9 50 ⟨1, 7, .booked, 9, none, "visit"⟩
    ⟨1, 0, 100, 5, 1⟩ ⟨2, 0, 100, 5, 0⟩
    (by decide) (by decide) (by decide) (by decide) (by decide) (by decide)
    (by decide)

/-! Lock-discipline model.  The three booking operations are abstracted to
the sequence of locking / transaction / write events they emit, in program
order, following the `with` blocks of the source:
`lock_create_appointment` runs
`with Lock(f"booking:resource:...") , transaction.atomic():` around its
checks and writes; `cancel_appointment_handler` opens only
`transaction.atomic()`; `reschedule` opens `transaction.atomic()`, calls
`cancel_appointment_handler`, then `lock_create_appointment`.  The Boolean
parameters stand for the outcomes of the three validation checks of
`lock_create_appointment` (expired / full / duplicate): when any of them is
true the operation raises before writing. -/

inductive LockEvent where
  | acquire (resource : Nat)
  | release (resource : Nat)
  | txBegin
  | txEnd
  | writeAllocated (sid resource : Nat)
  | writeBooking
deriving DecidableEq, Repr

/-- Event trace of `lock_create_appointment` on a slot: the resource lock is
acquired first, the transaction opened, the allocated counter written only
when all checks pass, then the transaction closes and the lock is
released. -/
def traceLockCreateAppointment (slot : SlotRec) (expired full dup : Bool) :
    List LockEvent :=
  [.acquire slot.resource, .txBegin] ++
  (if expired || full || dup then []
   else [.writeAllocated slot.sid slot.resource, .writeBooking]) ++
  [.txEnd, .release slot.resource]

/-- Event trace of `cancel_appointment_handler` on a booking and its slot:
only a transaction is opened — no lock is acquired — and the allocated
counter is written when the booking is not already cancelled. -/
def traceCancelAppointmentHandler (b : BookingRec) (slot : SlotRec) :
    List LockEvent :=
  [.txBegin] ++
  (if isActive b then [.writeAllocated slot.sid slot.resource] else []) ++
  [.writeBooking, .txEnd]

/-- Event trace of `reschedule`: an outer transaction wrapping the cancel
trace (old slot) and then the create trace (new slot). -/
def traceReschedule (b : BookingRec) (oldSlot newSlot : SlotRec)
    (expired full dup : Bool) : List LockEvent :=
  [.txBegin] ++ traceCancelAppointmentHandler b oldSlot ++
  traceLockCreateAppointment newSlot expired full dup ++ [.txEnd]

/-- The lock keyed by resource `r` is held just before the event at index
`i`: strictly more acquisitions than releases of that key so far. -/
def lockHeldAt (tr : List LockEvent) (i : Nat) (r : Nat) : Prop :=
  (tr.take i).count (.release r) < (tr.take i).count (.acquire r)

/-- Counterexample to C9 as stated: `cancel_appointment_handler` writes the
`allocated` counter (index 1 of its trace) while holding no resource lock at
all — the operation never acquires one. -/
theorem c9_counterexample :
    (traceCancelAppointmentHandler ⟨1, 7, .booked, 9, none, "visit"⟩
        ⟨1, 0, 100, 2, 1⟩)[1]? = some (.writeAllocated 1 0) ∧
    ∀ r : Nat, ¬ lockHeldAt
      (traceCancelAppointmentHandler ⟨1, 7, .booked, 9, none, "visit"⟩
        ⟨1, 0, 100, 2, 1⟩) 1 r := by
  constructor
  · rfl
  · intro r
    simp [lockHeldAt, traceCancelAppointmentHandler, isActive, cancelledStatusChoices]

/-- C9 (amended): only `lock_create_appointment` writes the `allocated`
counter under the per-resource lock.  Every `allocated` write in the create
trace happens with the lock of the slot's resource held; every `allocated`
write in the cancel trace happens with no lock held at all; in the
reschedule trace the cancel-phase write (old slot) is unlocked while the
create-phase write (new slot) is under the new slot's resource lock. -/
theorem c9_lock_discipline (slot oldS newS : SlotRec) (b : BookingRec)
    (expired full dup : Bool) :
    (∀ i sid r : Nat,
      (traceLockCreateAppointment slot expired full dup)[i]? =
          some (.writeAllocated sid r) →
        r = slot.resource ∧
        lockHeldAt (traceLockCreateAppointment slot expired full dup) i r) ∧
    (∀ i sid r : Nat,
      (traceCancelAppointmentHandler b slot)[i]? = some (.writeAllocated sid r) →
        ∀ r' : Nat, ¬ lockHeldAt (traceCancelAppointmentHandler b slot) i r') ∧
    (∀ i sid r : Nat,
      (traceReschedule b oldS newS expired full dup)[i]? =
          some (.writeAllocated sid r) →
        (sid = oldS.sid ∧ r = oldS.resource ∧
          ∀ r' : Nat, ¬ lockHeldAt (traceReschedule b oldS newS expired full dup) i r') ∨
        (sid = newS.sid ∧ r = newS.resource ∧
          lockHeldAt (traceReschedule b oldS newS expired full dup) i newS.resource)) := by
  refine ⟨?_, ?_, ?_⟩
  · intro i sid r h
    rcases hef : (expired || full || dup) with _ | _ <;>
      simp only [traceLockCreateAppointment, hef, if_true, if_false,
        List.cons_append, List.nil_append] at h ⊢ <;>
      rcases i with _ | _ | _ | _ | _ | _ | i <;>
      simp_all [lockHeldAt]
  · intro i sid r h
    rcases hact : isActive b with _ | _ <;>
      simp only [traceCancelAppointmentHandler, hact, if_true, if_false,
        List.cons_append, List.nil_append] at h ⊢ <;>
      rcases i with _ | _ | _ | _ | i <;>
      simp_all [lockHeldAt]
  · intro i sid r h
    rcases hact : isActive b with _ | _ <;>
      rcases hef : (expired || full || dup) with _ | _ <;>
      simp only [traceReschedule, traceCancelAppointmentHandler,
        traceLockCreateAppointment, hact, hef, if_true, if_false,
        List.cons_append, List.nil_append, List.append_assoc] at h ⊢ <;>
      rcases i with _ | _ | _ | _ | _ | _ | _ | _ | _ | _ | _ | _ | i <;>
      simp_all [lockHeldAt]

/-- Witness for `c9_lock_discipline` at concrete slots and booking: the
reschedule trace's cancel-phase write is unlocked. -/
theorem c9_lock_discipline_witness :
    (traceReschedule ⟨1, 7, .booked, 9, none, "visit"⟩ ⟨1, 0, 100, 2, 1⟩
        ⟨2, 0, 100, 2, 0⟩ false false false)[2]? = some (.writeAllocated 1 0) ∧
    (((1 : Nat) = 1 ∧ (0 : Nat) = 0 ∧
      ∀ r' : Nat, ¬ lockHeldAt (traceReschedule ⟨1, 7, .booked, 9, none, "visit"⟩
        ⟨1, 0, 100, 2, 1⟩ ⟨2, 0, 100, 2, 0⟩ false false false) 2 r') ∨
    ((1 : Nat) = 2 ∧ (0 : Nat) = 0 ∧
      lockHeldAt (traceReschedule ⟨1, 7, .booked, 9, none, "visit"⟩
        ⟨1, 0, 100, 2, 1⟩ ⟨2, 0, 100, 2, 0⟩ false false false) 2 0)) := by
  constructor
  · rfl
  · exact (c9_lock_discipline ⟨1, 0, 100, 2, 1⟩ ⟨1, 0, 100, 2, 1⟩ ⟨2, 0, 100, 2, 0⟩
      ⟨1, 7, .booked, 9, none, "visit"⟩ false false false).2.2 2 1 0 (by rfl)

/-! Slot materializer and availability statistics.  Days are natural
numbers with `weekday d = d % 7` standing for `date.weekday()`; times of
day are minute counts, so `datetime.combine(day, t)` plus
`timedelta(minutes=s)` becomes addition on minutes (candidate end times may
exceed the day's last minute exactly as the combined datetimes may spill
into the next day; the midnight wrap of `.time()` is outside the modelled
range). -/

/-- `SlotTypeOptions` of care/emr/resources/scheduling/schedule/spec.py. -/
inductive SlotTypeOptions where
  | open_
  | appointment
  | closed
deriving DecidableEq, Repr

/-- A `Schedule` row: validity window (as days) and owning resource. -/
structure ScheduleRec where
  id : Nat
  resource : Nat
  validFrom : Nat
  validTo : Nat
deriving DecidableEq, Repr

/-- One weekly window of an Availability's `availability` JSON list. -/
structure AvailabilitySlotRec where
  dayOfWeek : Nat
  startTime : Nat
  endTime : Nat
deriving DecidableEq, Repr

/-- An `Availability` row. -/
structure AvailabilityRec where
  id : Nat
  scheduleId : Nat
  slotType : SlotTypeOptions
  slotSizeInMinutes : Nat
  tokensPerSlot : Nat
  availability : List AvailabilitySlotRec
deriving DecidableEq, Repr

/-- An `AvailabilityException` row (date range as days, daily time range as
minutes). -/
structure AvailabilityExceptionRec where
  resource : Nat
  validFrom : Nat
  validTo : Nat
  startTime : Nat
  endTime : Nat
deriving DecidableEq, Repr

/-- A persisted `TokenSlot` row as the materializer sees it: both
`start_datetime` and `end_datetime` fall on `day`, with times in minutes.
`allocated` is a `Nat` (the DB column is non-negative). -/
structure TokenSlotRow where
  resource : Nat
  day : Nat
  startTime : Nat
  endTime : Nat
  availabilityId : Nat
  allocated : Nat
deriving DecidableEq, Repr

def weekday (day : Nat) : Nat := day % 7

/-- One entry of `calculated_dow_availabilities` in
`get_slots_for_day_handler`. -/
structure DowAvailability where
  availability : AvailabilitySlotRec
  slotSizeInMinutes : Nat
  availabilityId : Nat
deriving DecidableEq, Repr

/-- Value stored in the `slots` dict of
`convert_availability_and_exceptions_to_slots`. -/
structure CandidateSlot where
  startTime : Nat
  endTime : Nat
  availabilityId : Nat
deriving DecidableEq, Repr

/-- The exception-overlap test of the materializer and of
`calculate_slots`: `exception.start < candidate.end AND
exception.end > candidate.start`. -/
def exceptionConflicts (exceptions : List AvailabilityExceptionRec)
    (cur size : Nat) : Bool :=
  exceptions.any (fun e => decide (e.startTime < cur + size) &&
    decide (e.endTime > cur))

/-- The candidate loop of `convert_availability_and_exceptions_to_slots`
for one weekly window: `while current_time < end_time`, stepping by the
slot size, guarded by the `i == 30` failsafe (so at most 29 iterations do
work, `fuel` starting at 29); conflicting candidates are skipped.  Entries
are keyed by the (start, end) pair standing for the
`f"{start}-{end}"` dict key. -/
def convertWindow (exceptions : List AvailabilityExceptionRec)
    (endTime size aid : Nat) : Nat → Nat → List ((Nat × Nat) × CandidateSlot)
  | _, 0 => []
  | cur, fuel + 1 =>
    if cur < endTime then
      (if exceptionConflicts exceptions cur size then []
       else [((cur, cur + size), ⟨cur, cur + size, aid⟩)]) ++
      convertWindow exceptions endTime size aid (cur + size) fuel
    else []

/-- Python dict assignment `slots[key] = value`: replace in place if the
key exists, else append. -/
def upsert (m : List ((Nat × Nat) × CandidateSlot))
    (kv : (Nat × Nat) × CandidateSlot) : List ((Nat × Nat) × CandidateSlot) :=
  if m.any (fun p => p.1 = kv.1) then
    m.map (fun p => if p.1 = kv.1 then kv else p)
  else m ++ [kv]

/-- `convert_availability_and_exceptions_to_slots`: walk every
day-of-week availability, generate its candidates and insert them into the
shared dict in order. -/
def convertAvailabilityAndExceptionsToSlots (availabilities : List DowAvailability)
    (exceptions : List AvailabilityExceptionRec) :
    List ((Nat × Nat) × CandidateSlot) :=
  availabilities.foldl (fun slots a =>
    (convertWindow exceptions a.availability.endTime a.slotSizeInMinutes
      a.availabilityId a.availability.startTime 29).foldl upsert slots) []

/-- The availability/weekday filtering of `get_slots_for_day_handler`:
appointment-type availabilities whose schedule covers the day for the
resource, flattened to their windows matching the day's weekday. -/
def dowAvailabilities (schedules : List ScheduleRec)
    (availabilities : List AvailabilityRec) (resource day : Nat) :
    List DowAvailability :=
  (availabilities.filter (fun a => a.slotType = SlotTypeOptions.appointment &&
      schedules.any (fun sch => sch.id = a.scheduleId && sch.resource = resource &&
        decide (sch.validFrom ≤ day) && decide (day ≤ sch.validTo)))).flatMap
    (fun a => (a.availability.filter (fun w => w.dayOfWeek = weekday day)).map
      (fun w => ⟨w, a.slotSizeInMinutes, a.id⟩))

/-- Body of the `for slot in created_slots` loop of
`get_slots_for_day_handler`: if the existing slot's time key is in the dict
and the dict entry's availability matches, pop that key. -/
def popStep (m : List ((Nat × Nat) × CandidateSlot)) (cs : TokenSlotRow) :
    List ((Nat × Nat) × CandidateSlot) :=
  match m.find? (fun p => p.1 = (cs.startTime, cs.endTime)) with
  | some p =>
    if p.2.availabilityId = cs.availabilityId then
      m.filter (fun q => !(q.1 = (cs.startTime, cs.endTime) : Bool))
    else m
  | none => m

/-- The `for slot in created_slots: ... slots.pop(slot_key)` loop: drop a
candidate whose key is present and whose availability matches an existing
slot. -/
def popExistingSlots (slots0 : List ((Nat × Nat) × CandidateSlot))
    (createdSlots : List TokenSlotRow) : List ((Nat × Nat) × CandidateSlot) :=
  createdSlots.foldl popStep slots0

/-- The persisted-slot table the materializer reads and writes. -/
structure MatState where
  tokenSlots : List TokenSlotRow
deriving DecidableEq, Repr

/-- `SlotViewSet.get_slots_for_day_handler`: generate candidates for the
day, drop those matching an already-created slot, create the rest with
`allocated = 0`, and return all slots of the (resource, day). -/
def getSlotsForDayHandler (st : MatState) (schedules : List ScheduleRec)
    (availabilities : List AvailabilityRec)
    (exceptions : List AvailabilityExceptionRec) (resource day : Nat) :
    MatState × List TokenSlotRow :=
  let dowAvails := dowAvailabilities schedules availabilities resource day
  let dayExceptions := exceptions.filter
    (fun e => e.resource = resource && decide (e.validFrom ≤ day) &&
      decide (day ≤ e.validTo))
  let slots0 := convertAvailabilityAndExceptionsToSlots dowAvails dayExceptions
  let createdSlots := st.tokenSlots.filter
    (fun s => s.day = day && s.resource = resource)
  let slots1 := popExistingSlots slots0 createdSlots
  let newRows := slots1.map (fun p =>
    TokenSlotRow.mk resource day p.2.startTime p.2.endTime p.2.availabilityId 0)
  let st' : MatState := ⟨st.tokenSlots ++ newRows⟩
  (st', st'.tokenSlots.filter (fun s => s.day = day && s.resource = resource))

/-- The per-window counting loop of `calculate_slots`: same stepping and
conflict test as the materializer but with no iteration cap, adding
`tokens_per_slot` per surviving candidate.  `fuel` only realizes the
(terminating) `while current_start_time < end_time` loop; callers pass
`fuel = endTime`, enough whenever `size ≥ 1`. -/
def calcWindow (exceptions : List AvailabilityExceptionRec)
    (endTime size tokens : Nat) : Nat → Nat → Nat
  | _, 0 => 0
  | cur, fuel + 1 =>
    if cur < endTime then
      (if exceptionConflicts exceptions cur size then 0 else tokens) +
      calcWindow exceptions endTime size tokens (cur + size) fuel
    else 0

/-- `calculate_slots`: for each schedule of the day, each of its cached
appointment availabilities, each weekly window matching the weekday, count
`tokens_per_slot` for every non-conflicting candidate interval. -/
def calculateSlots (date : Nat) (availCache : Nat → List AvailabilityRec)
    (schedules : List ScheduleRec)
    (exceptions : List AvailabilityExceptionRec) : Nat :=
  schedules.foldl (fun acc sch =>
    (availCache sch.id).foldl (fun acc2 a =>
      (a.availability.filter (fun w => w.dayOfWeek = weekday date)).foldl
        (fun acc3 w =>
          acc3 + calcWindow exceptions w.endTime a.slotSizeInMinutes
            a.tokensPerSlot w.startTime w.endTime) acc2) acc) 0

/-- The `total_slots` half of `SlotViewSet.availability_stats`: period
validation, range filtering of schedules/availabilities/exceptions, then
one `calculate_slots` per day of `[from_date, to_date)` (the source loops
`while day < to_date`).  The `booked_slots` aggregation over persisted
slots is not modelled; the claims below concern only `total_slots`. -/
def availabilityStats (schedulesAll : List ScheduleRec)
    (availabilitiesAll : List AvailabilityRec)
    (exceptionsAll : List AvailabilityExceptionRec)
    (resource fromDate toDate : Nat) : Except String (List (Nat × Nat)) :=
  if fromDate > toDate then .error "From Date cannot be after To Date"
  else if toDate - fromDate > 32 then .error "Period too long"
  else
    let schedules := schedulesAll.filter (fun sch => sch.resource = resource &&
      decide (sch.validFrom ≤ toDate) && decide (fromDate ≤ sch.validTo))
    let availCache := fun sid => availabilitiesAll.filter
      (fun a => a.scheduleId = sid && a.slotType = SlotTypeOptions.appointment)
    let exceptions := exceptionsAll.filter (fun e => e.resource = resource &&
      decide (e.validFrom ≤ toDate) && decide (fromDate ≤ e.validTo))
    .ok ((List.range (toDate - fromDate)).map (fun k =>
      let day := fromDate + k
      let currentSchedules := schedules.filter
        (fun sch => decide (sch.validFrom ≤ day) && decide (day ≤ sch.validTo))
      let dayExceptions := exceptions.filter
        (fun e => decide (e.validFrom ≤ day) && decide (day ≤ e.validTo))
      (day, calculateSlots day availCache currentSchedules dayExceptions)))

/-- `sum(tokens_per_slot for slot in get_slots_for_day(...))`: each
returned slot is annotated with its availability's `tokens_per_slot`. -/
def sumTokensPerSlot (availabilities : List AvailabilityRec)
    (rows : List TokenSlotRow) : Nat :=
  (rows.map (fun r =>
    match availabilities.find? (fun a => a.id = r.availabilityId) with
    | some a => a.tokensPerSlot
    | none => 0)).sum

/-- The exception check only filters candidates: the candidate list with
exceptions equals the exception-free candidate list with conflicting
entries removed. -/
theorem convertWindow_eq_filter (excs : List AvailabilityExceptionRec)
    (endT size aid : Nat) : ∀ fuel cur,
    convertWindow excs endT size aid cur fuel =
      (convertWindow [] endT size aid cur fuel).filter
        (fun p => !(exceptionConflicts excs p.2.startTime size)) := by
  intro fuel
  induction fuel with
  | zero => intro cur; rfl
  | succ n ih =>
    intro cur
    rw [convertWindow, convertWindow]
    by_cases hlt : cur < endT
    · rw [if_pos hlt, if_pos hlt]
      have hnc : exceptionConflicts [] cur size = false := rfl
      rw [hnc]
      simp only [Bool.false_eq_true, if_false]
      rw [List.filter_append, ih]
      congr 1
      by_cases hc : exceptionConflicts excs cur size = true
      · rw [if_pos hc]
        simp [hc]
      · rw [if_neg hc]
        simp only [Bool.not_eq_true] at hc
        simp [hc]
    · rw [if_neg hlt, if_neg hlt]
      rfl

/-- Shape of the exception-free candidates of one window. -/
theorem mem_convertWindow_nil (endT size aid : Nat) : ∀ fuel cur p,
    p ∈ convertWindow [] endT size aid cur fuel →
      cur ≤ p.2.startTime ∧ p.2.startTime < endT ∧
      p.2.endTime = p.2.startTime + size ∧
      p.1 = (p.2.startTime, p.2.endTime) ∧ p.2.availabilityId = aid := by
  intro fuel
  induction fuel with
  | zero => intro cur p hp; simp [convertWindow] at hp
  | succ n ih =>
    intro cur p hp
    rw [convertWindow] at hp
    by_cases hlt : cur < endT
    · rw [if_pos hlt] at hp
      have hnc : exceptionConflicts [] cur size = false := rfl
      rw [hnc] at hp
      simp only [Bool.false_eq_true, if_false, List.singleton_append,
        List.mem_cons] at hp
      rcases hp with rfl | hp
      · exact ⟨le_refl _, hlt, rfl, rfl, rfl⟩
      · obtain ⟨h1, h2, h3, h4, h5⟩ := ih (cur + size) p hp
        exact ⟨by omega, h2, h3, h4, h5⟩
    · rw [if_neg hlt] at hp
      simp at hp

/-- C6: a candidate interval of a weekly window survives exactly when no
exception for the day satisfies `exception.start < candidate.end AND
exception.end > candidate.start`; an exception covering the whole window
removes every candidate; an exception covering an initial segment leaves
exactly the candidates starting at or after its end time. -/
theorem c6_exception_subtraction (excs : List AvailabilityExceptionRec)
    (startT endT size aid : Nat) :
    (∀ p, p ∈ convertWindow excs endT size aid startT 29 ↔
      (p ∈ convertWindow [] endT size aid startT 29 ∧
        ¬∃ e ∈ excs, e.startTime < p.2.startTime + size ∧
          e.endTime > p.2.startTime)) ∧
    (∀ e ∈ excs, 1 ≤ size → e.startTime ≤ startT → endT ≤ e.endTime →
      convertWindow excs endT size aid startT 29 = []) ∧
    (∀ e, excs = [e] → 1 ≤ size → e.startTime ≤ startT →
      convertWindow excs endT size aid startT 29 =
        (convertWindow [] endT size aid startT 29).filter
          (fun p => decide (e.endTime ≤ p.2.startTime))) := by
  have hconf : ∀ (t : Nat),
      exceptionConflicts excs t size = true ↔
        ∃ e ∈ excs, e.startTime < t + size ∧ e.endTime > t := by
    intro t
    simp [exceptionConflicts, List.any_eq_true]
  refine ⟨?_, ?_, ?_⟩
  · intro p
    rw [convertWindow_eq_filter, List.mem_filter]
    constructor
    · rintro ⟨h1, h2⟩
      refine ⟨h1, ?_⟩
      intro hex
      rw [Bool.not_eq_eq_eq_not, Bool.not_true] at h2
      rw [← hconf p.2.startTime] at hex
      rw [h2] at hex
      exact absurd hex (by simp)
    · rintro ⟨h1, h2⟩
      refine ⟨h1, ?_⟩
      rw [← hconf p.2.startTime] at h2
      simp [Bool.not_eq_true] at h2 ⊢
      exact h2
  · intro e he hsize hstart hend
    rw [convertWindow_eq_filter]
    rw [List.filter_eq_nil_iff]
    intro p hp
    obtain ⟨h1, h2, h3, h4, h5⟩ :=
      mem_convertWindow_nil endT size aid 29 startT p hp
    simp only [Bool.not_eq_eq_eq_not, Bool.not_true, Bool.not_eq_false]
    rw [hconf]
    exact ⟨e, he, by omega, by omega⟩
  · rintro e rfl hsize hstart
    rw [convertWindow_eq_filter]
    refine List.filter_congr ?_
    intro p hp
    obtain ⟨h1, h2, h3, h4, h5⟩ :=
      mem_convertWindow_nil endT size aid 29 startT p hp
    have hck : exceptionConflicts [e] p.2.startTime size =
        decide (e.endTime > p.2.startTime) := by
      simp only [exceptionConflicts, List.any_cons, List.any_nil, Bool.or_false]
      have h1' : e.startTime < p.2.startTime + size := by omega
      simp [h1']
    rw [hck]
    by_cases hgt : e.endTime > p.2.startTime
    · simp [hgt, Nat.not_le.mpr hgt]
    · simp [hgt, Nat.le_of_not_lt hgt]

/-- Witness for `c6_exception_subtraction`: a full-day exception
(00:00-24:00) empties a 09:00-13:00 window of 120-minute candidates. -/
theorem c6_exception_subtraction_witness :
    convertWindow [⟨0, 0, 1000, 0, 1440⟩] 780 120 5 540 29 = [] :=
  (c6_exception_subtraction [⟨0, 0, 1000, 0, 1440⟩] 540 780 120 5).2.1
    ⟨0, 0, 1000, 0, 1440⟩ (by decide) (by decide) (by decide) (by decide)

/-! Invariants of the candidate dict: the insertion-ordered association
list built by `upsert` has pairwise-distinct keys, and every entry's key is
the (start, end) pair of its value. -/

def dictKeys (m : List ((Nat × Nat) × CandidateSlot)) : List (Nat × Nat) :=
  m.map (fun p => p.1)

def keyConsistent (m : List ((Nat × Nat) × CandidateSlot)) : Prop :=
  ∀ p ∈ m, p.1 = (p.2.startTime, p.2.endTime)

theorem dictKeys_upsert (m : List ((Nat × Nat) × CandidateSlot))
    (kv : (Nat × Nat) × CandidateSlot) :
    dictKeys (upsert m kv) =
      if m.any (fun p => p.1 = kv.1) then dictKeys m else dictKeys m ++ [kv.1] := by
  unfold upsert dictKeys
  by_cases h : m.any (fun p => p.1 = kv.1) = true
  · rw [if_pos h, if_pos h, List.map_map]
    refine List.map_congr_left (fun p _ => ?_)
    by_cases hp : p.1 = kv.1
    · simp [hp]
    · simp [hp]
  · rw [if_neg h, if_neg h, List.map_append]
    rfl

theorem dictKeys_nodup_upsert (m : List ((Nat × Nat) × CandidateSlot))
    (kv : (Nat × Nat) × CandidateSlot) (h : (dictKeys m).Nodup) :
    (dictKeys (upsert m kv)).Nodup := by
  rw [dictKeys_upsert]
  by_cases hc : m.any (fun p => p.1 = kv.1) = true
  · rw [if_pos hc]; exact h
  · rw [if_neg hc]
    rw [List.nodup_append]
    refine ⟨h, List.nodup_singleton _, ?_⟩
    intro k hk
    simp only [List.mem_singleton]
    intro hkkv
    apply hc
    rw [List.any_eq_true]
    obtain ⟨p, hp, hpeq⟩ := List.mem_map.mp hk
    exact ⟨p, hp, by simp [hpeq, hkkv]⟩

theorem keyConsistent_upsert (m : List ((Nat × Nat) × CandidateSlot))
    (kv : (Nat × Nat) × CandidateSlot) (hm : keyConsistent m)
    (hkv : kv.1 = (kv.2.startTime, kv.2.endTime)) : keyConsistent (upsert m kv) := by
  intro p hp
  unfold upsert at hp
  by_cases hc : m.any (fun q => q.1 = kv.1) = true
  · rw [if_pos hc] at hp
    obtain ⟨q, hq, hqeq⟩ := List.mem_map.mp hp
    by_cases hqk : q.1 = kv.1
    · rw [if_pos hqk] at hqeq
      rw [← hqeq]
      exact hkv
    · rw [if_neg hqk] at hqeq
      rw [← hqeq]
      exact hm q hq
  · rw [if_neg hc] at hp
    rcases List.mem_append.mp hp with hp | hp
    · exact hm p hp
    · rw [show p = kv by simpa using hp]
      exact hkv

theorem dictKeys_nodup_foldl (cands : List ((Nat × Nat) × CandidateSlot)) :
    ∀ m, (dictKeys m).Nodup → (dictKeys (cands.foldl upsert m)).Nodup := by
  induction cands with
  | nil => intro m h; exact h
  | cons c t ih =>
    intro m h
    rw [List.foldl_cons]
    exact ih _ (dictKeys_nodup_upsert m c h)

theorem keyConsistent_foldl (cands : List ((Nat × Nat) × CandidateSlot))
    (hc : ∀ kv ∈ cands, kv.1 = (kv.2.startTime, kv.2.endTime)) :
    ∀ m, keyConsistent m → keyConsistent (cands.foldl upsert m) := by
  induction cands with
  | nil => intro m h; exact h
  | cons c t ih =>
    intro m h
    rw [List.foldl_cons]
    exact ih (fun kv hkv => hc kv (List.mem_cons_of_mem c hkv)) _
      (keyConsistent_upsert m c h (hc c (List.mem_cons_self c t)))

theorem convertWindow_keyConsistent (excs : List AvailabilityExceptionRec)
    (endT size aid fuel cur : Nat) :
    ∀ kv ∈ convertWindow excs endT size aid cur fuel,
      kv.1 = (kv.2.startTime, kv.2.endTime) := by
  intro kv hkv
  rw [convertWindow_eq_filter] at hkv
  exact (mem_convertWindow_nil endT size aid fuel cur kv
    (List.mem_of_mem_filter hkv)).2.2.2.1

theorem convertSlots_nodup_keys (davails : List DowAvailability)
    (excs : List AvailabilityExceptionRec) :
    (dictKeys (convertAvailabilityAndExceptionsToSlots davails excs)).Nodup := by
  unfold convertAvailabilityAndExceptionsToSlots
  suffices h : ∀ m, (dictKeys m).Nodup →
      (dictKeys (davails.foldl (fun slots a =>
        (convertWindow excs a.availability.endTime a.slotSizeInMinutes
          a.availabilityId a.availability.startTime 29).foldl upsert slots) m)).Nodup by
    exact h [] (by simp [dictKeys])
  induction davails with
  | nil => intro m h; exact h
  | cons a t ih =>
    intro m h
    rw [List.foldl_cons]
    exact ih _ (dictKeys_nodup_foldl _ m h)

theorem convertSlots_keyConsistent (davails : List DowAvailability)
    (excs : List AvailabilityExceptionRec) :
    keyConsistent (convertAvailabilityAndExceptionsToSlots davails excs) := by
  unfold convertAvailabilityAndExceptionsToSlots
  suffices h : ∀ m, keyConsistent m →
      keyConsistent (davails.foldl (fun slots a =>
        (convertWindow excs a.availability.endTime a.slotSizeInMinutes
          a.availabilityId a.availability.startTime 29).foldl upsert slots) m) by
    exact h [] (by intro p hp; simp at hp)
  induction davails with
  | nil => intro m h; exact h
  | cons a t ih =>
    intro m h
    rw [List.foldl_cons]
    exact ih _ (keyConsistent_foldl _
      (convertWindow_keyConsistent excs _ _ _ 29 _) m h)

theorem popStep_sublist (m : List ((Nat × Nat) × CandidateSlot))
    (cs : TokenSlotRow) : (popStep m cs).Sublist m := by
  unfold popStep
  rcases hf : m.find? (fun p => p.1 = (cs.startTime, cs.endTime)) with _ | q
  · simp only [hf]
    exact List.Sublist.refl m
  · simp only [hf]
    by_cases hav : q.2.availabilityId = cs.availabilityId
    · rw [if_pos hav]
      exact List.filter_sublist m
    · rw [if_neg hav]

theorem popExistingSlots_sublist (createdSlots : List TokenSlotRow) :
    ∀ m, (popExistingSlots m createdSlots).Sublist m := by
  induction createdSlots with
  | nil => intro m; exact List.Sublist.refl m
  | cons c t ih =>
    intro m
    show (popExistingSlots (popStep m c) t).Sublist m
    exact (ih (popStep m c)).trans (popStep_sublist m c)

theorem popStep_no_match (m : List ((Nat × Nat) × CandidateSlot))
    (cs : TokenSlotRow) (hnodup : (dictKeys m).Nodup) :
    ∀ p ∈ popStep m cs,
      ¬(p.1 = (cs.startTime, cs.endTime) ∧
        p.2.availabilityId = cs.availabilityId) := by
  intro p hp
  unfold popStep at hp
  rcases hf : m.find? (fun q => q.1 = (cs.startTime, cs.endTime)) with _ | q
  · simp only [hf] at hp
    rintro ⟨hk, _⟩
    have := List.find?_eq_none.mp hf p hp
    simp [hk] at this
  · simp only [hf] at hp
    by_cases hav : q.2.availabilityId = cs.availabilityId
    · rw [if_pos hav] at hp
      rintro ⟨hk, _⟩
      have := List.of_mem_filter hp
      simp [hk] at this
    · rw [if_neg hav] at hp
      rintro ⟨hk, hav2⟩
      have hqmem := List.mem_of_find?_eq_some hf
      have hqkey : q.1 = (cs.startTime, cs.endTime) := by
        simpa using List.find?_some hf
      have hpq : p = q :=
        List.inj_on_of_nodup_map hnodup hp hqmem (by rw [hk, hqkey])
      subst hpq
      exact hav hav2

theorem popExistingSlots_no_match (createdSlots : List TokenSlotRow) :
    ∀ m, (dictKeys m).Nodup →
    ∀ p ∈ popExistingSlots m createdSlots, ∀ cs ∈ createdSlots,
      ¬(p.1 = (cs.startTime, cs.endTime) ∧
        p.2.availabilityId = cs.availabilityId) := by
  induction createdSlots with
  | nil =>
    intro m _ p _ cs hcs
    simp at hcs
  | cons c t ih =>
    intro m hnodup p hp cs hcs
    have hnodup' : (dictKeys (popStep m c)).Nodup :=
      ((popStep_sublist m c).map _).nodup hnodup
    rcases List.mem_cons.mp hcs with rfl | hcs'
    · have hpm : p ∈ popStep m cs :=
        (popExistingSlots_sublist t (popStep m cs)).subset hp
      exact popStep_no_match m cs hnodup p hpm
    · exact ih (popStep m c) hnodup' p hp cs hcs'

/-- Feeding the rows created from the dict back through the pop loop
empties the dict: every candidate the first call created is matched (same
key, same availability) on the second call. -/
theorem popExistingSlots_self (resource day : Nat) :
    ∀ m : List ((Nat × Nat) × CandidateSlot), (dictKeys m).Nodup → keyConsistent m →
    popExistingSlots m (m.map (fun p =>
      TokenSlotRow.mk resource day p.2.startTime p.2.endTime p.2.availabilityId 0)) =
      [] := by
  intro m
  induction m with
  | nil => intro _ _; rfl
  | cons p m' ih =>
    intro hnodup hcons
    have hkey : p.1 = (p.2.startTime, p.2.endTime) := hcons p (by simp)
    have hkeynodup : p.1 ∉ m'.map (fun q => q.1) := by
      have := hnodup
      rw [dictKeys, List.map_cons, List.nodup_cons] at this
      exact this.1
    have hstep : popStep (p :: m')
        (TokenSlotRow.mk resource day p.2.startTime p.2.endTime
          p.2.availabilityId 0) = m' := by
      unfold popStep
      have hfind : (p :: m').find?
          (fun q => q.1 = (p.2.startTime, p.2.endTime)) = some p := by
        rw [List.find?_cons_of_pos]
        simpa using hkey
      simp only [hfind]
      rw [if_pos trivial]
      rw [List.filter_cons]
      have hp : (!(p.1 = ((TokenSlotRow.mk resource day p.2.startTime p.2.endTime
          p.2.availabilityId 0).startTime,
          (TokenSlotRow.mk resource day p.2.startTime p.2.endTime
            p.2.availabilityId 0).endTime) : Bool)) = false := by
        simp [hkey]
      rw [hp]
      simp only [Bool.false_eq_true, if_false]
      refine List.filter_eq_self.mpr ?_
      intro q hq
      have hq1 : ¬q.1 = p.1 := by
        intro he
        exact hkeynodup (List.mem_map.mpr ⟨q, hq, he⟩)
      have hq2 : ¬q.1 = (p.2.startTime, p.2.endTime) := by
        rw [← hkey]
        exact hq1
      simp [hq2]
    show popExistingSlots
        (popStep (p :: m') (TokenSlotRow.mk resource day p.2.startTime p.2.endTime
          p.2.availabilityId 0))
        (m'.map (fun q => TokenSlotRow.mk resource day q.2.startTime q.2.endTime
          q.2.availabilityId 0)) = []
    rw [hstep]
    refine ih ?_ ?_
    · rw [dictKeys, List.map_cons, List.nodup_cons] at hnodup
      exact hnodup.2
    · intro q hq
      exact hcons q (List.mem_cons_of_mem p hq)

/-- C5: running `get_slots_for_day_handler` twice with the same schedule
data is idempotent — the second call creates nothing, returns the same
slot list and leaves the state identical; the first call only appends rows
with `allocated = 0` (never deleting or mutating an existing slot); and if
the (resource, day) already had pairwise-distinct
(start, end, availability) rows, that uniqueness still holds afterwards. -/
theorem c5_idempotent_materialization (st0 : MatState)
    (schedules : List ScheduleRec) (availabilities : List AvailabilityRec)
    (exceptions : List AvailabilityExceptionRec) (resource day : Nat)
    (hnodup : ((st0.tokenSlots.filter
        (fun s => s.day = day && s.resource = resource)).map
        (fun s => (s.startTime, s.endTime, s.availabilityId))).Nodup) :
    (getSlotsForDayHandler
        (getSlotsForDayHandler st0 schedules availabilities exceptions
          resource day).1 schedules availabilities exceptions resource day).1 =
      (getSlotsForDayHandler st0 schedules availabilities exceptions
        resource day).1 ∧
    (getSlotsForDayHandler
        (getSlotsForDayHandler st0 schedules availabilities exceptions
          resource day).1 schedules availabilities exceptions resource day).2 =
      (getSlotsForDayHandler st0 schedules availabilities exceptions
        resource day).2 ∧
    (∃ newRows, (getSlotsForDayHandler st0 schedules availabilities exceptions
        resource day).1.tokenSlots = st0.tokenSlots ++ newRows ∧
      ∀ r ∈ newRows, r.allocated = 0) ∧
    (((getSlotsForDayHandler st0 schedules availabilities exceptions
        resource day).1.tokenSlots.filter
        (fun s => s.day = day && s.resource = resource)).map
        (fun s => (s.startTime, s.endTime, s.availabilityId))).Nodup := by
  set dowAvails := dowAvailabilities schedules availabilities resource day
    with hdow
  set dayExceptions := exceptions.filter
    (fun e => e.resource = resource && decide (e.validFrom ≤ day) &&
      decide (day ≤ e.validTo)) with hexc
  set slots0 := convertAvailabilityAndExceptionsToSlots dowAvails dayExceptions
    with hslots0
  set createdSlots := st0.tokenSlots.filter
    (fun s => s.day = day && s.resource = resource) with hcreated
  set slots1 := popExistingSlots slots0 createdSlots with hslots1
  set newRows := slots1.map (fun p =>
    TokenSlotRow.mk resource day p.2.startTime p.2.endTime p.2.availabilityId 0)
    with hnew
  have hnodup0 : (dictKeys slots0).Nodup :=
    convertSlots_nodup_keys dowAvails dayExceptions
  have hcons0 : keyConsistent slots0 :=
    convertSlots_keyConsistent dowAvails dayExceptions
  have hnodup1 : (dictKeys slots1).Nodup :=
    ((popExistingSlots_sublist createdSlots slots0).map _).nodup hnodup0
  have hcons1 : keyConsistent slots1 := fun p hp =>
    hcons0 p ((popExistingSlots_sublist createdSlots slots0).subset hp)
  have hr1state : (getSlotsForDayHandler st0 schedules availabilities exceptions
      resource day).1 = ⟨st0.tokenSlots ++ newRows⟩ := rfl
  have hnewfilter : newRows.filter
      (fun s => s.day = day && s.resource = resource) = newRows := by
    refine List.filter_eq_self.mpr ?_
    intro r hr
    obtain ⟨p, _, rfl⟩ := List.mem_map.mp hr
    simp
  have hfilter2 : (st0.tokenSlots ++ newRows).filter
      (fun s => s.day = day && s.resource = resource) =
      createdSlots ++ newRows := by
    rw [List.filter_append, hnewfilter, hcreated]
  have hpop2 : popExistingSlots slots0 (createdSlots ++ newRows) = [] := by
    unfold popExistingSlots
    rw [List.foldl_append]
    show popExistingSlots slots1 newRows = []
    rw [hnew]
    exact popExistingSlots_self resource day slots1 hnodup1 hcons1
  have hstate2 : (getSlotsForDayHandler ⟨st0.tokenSlots ++ newRows⟩ schedules
      availabilities exceptions resource day).1 = ⟨st0.tokenSlots ++ newRows⟩ := by
    show (⟨(st0.tokenSlots ++ newRows) ++
        (popExistingSlots slots0 ((st0.tokenSlots ++ newRows).filter
          (fun s => s.day = day && s.resource = resource))).map
          (fun p => TokenSlotRow.mk resource day p.2.startTime p.2.endTime
            p.2.availabilityId 0)⟩ : MatState) = ⟨st0.tokenSlots ++ newRows⟩
    rw [hfilter2, hpop2]
    simp
  refine ⟨?_, ?_, ?_, ?_⟩
  · rw [hr1state, hstate2]
  · show (getSlotsForDayHandler (getSlotsForDayHandler st0 schedules availabilities
        exceptions resource day).1 schedules availabilities exceptions
        resource day).1.tokenSlots.filter
        (fun s => s.day = day && s.resource = resource) = _
    rw [hr1state, hstate2]
    rfl
  · exact ⟨newRows, rfl, by
      intro r hr
      obtain ⟨p, _, rfl⟩ := List.mem_map.mp hr
      rfl⟩
  · rw [hr1state]
    show ((((st0.tokenSlots ++ newRows).filter
        (fun s => s.day = day && s.resource = resource))).map
        (fun s => (s.startTime, s.endTime, s.availabilityId))).Nodup
    rw [hfilter2, List.map_append, List.nodup_append]
    refine ⟨hnodup, ?_, ?_⟩
    · have hkeysEq : (newRows.map
          (fun s => (s.startTime, s.endTime, s.availabilityId))).map
          (fun t => (t.1, t.2.1)) = dictKeys slots1 := by
        rw [hnew]
        rw [List.map_map, List.map_map, dictKeys]
        refine List.map_congr_left (fun p hp => ?_)
        rw [hcons1 p hp]
        rfl
      have : ((newRows.map
          (fun s => (s.startTime, s.endTime, s.availabilityId))).map
          (fun t => (t.1, t.2.1))).Nodup := by
        rw [hkeysEq]; exact hnodup1
      exact this.of_map _
    · intro t ht htmem
      obtain ⟨cs, hcs, hcst⟩ := List.mem_map.mp ht
      obtain ⟨r, hr, hrt⟩ := List.mem_map.mp htmem
      rw [hnew] at hr
      obtain ⟨p, hp, rfl⟩ := List.mem_map.mp hr
      have hmatch := popExistingSlots_no_match createdSlots slots0 hnodup0 p hp
        cs hcs
      apply hmatch
      have h1 : cs.startTime = p.2.startTime ∧ cs.endTime = p.2.endTime ∧
          cs.availabilityId = p.2.availabilityId := by
        rw [← hrt] at hcst
        simp only [Prod.mk.injEq] at hcst
        exact ⟨hcst.1, hcst.2.1, hcst.2.2⟩
      refine ⟨?_, h1.2.2.symm⟩
      rw [hcons1 p hp, h1.1, h1.2.1]

/-- Witness for `c5_idempotent_materialization`: one availability
(09:00-13:00, 120-minute slots) materialized twice for the same day from an
empty table. -/
theorem c5_idempotent_materialization_witness :
    (getSlotsForDayHandler
        (getSlotsForDayHandler ⟨[]⟩ [⟨0, 0, 0, 1000⟩]
          [⟨5, 0, .appointment, 120, 30, [⟨0, 540, 780⟩]⟩] [] 0 7).1
        [⟨0, 0, 0, 1000⟩] [⟨5, 0, .appointment, 120, 30, [⟨0, 540, 780⟩]⟩]
        [] 0 7).1 =
      (getSlotsForDayHandler ⟨[]⟩ [⟨0, 0, 0, 1000⟩]
        [⟨5, 0, .appointment, 120, 30, [⟨0, 540, 780⟩]⟩] [] 0 7).1 ∧
    (getSlotsForDayHandler
        (getSlotsForDayHandler ⟨[]⟩ [⟨0, 0, 0, 1000⟩]
          [⟨5, 0, .appointment, 120, 30, [⟨0, 540, 780⟩]⟩] [] 0 7).1
        [⟨0, 0, 0, 1000⟩] [⟨5, 0, .appointment, 120, 30, [⟨0, 540, 780⟩]⟩]
        [] 0 7).2 =
      (getSlotsForDayHandler ⟨[]⟩ [⟨0, 0, 0, 1000⟩]
        [⟨5, 0, .appointment, 120, 30, [⟨0, 540, 780⟩]⟩] [] 0 7).2 ∧
    (∃ newRows, (getSlotsForDayHandler ⟨[]⟩ [⟨0, 0, 0, 1000⟩]
        [⟨5, 0, .appointment, 120, 30, [⟨0, 540, 780⟩]⟩] [] 0 7).1.tokenSlots =
        (⟨[]⟩ : MatState).tokenSlots ++ newRows ∧
      ∀ r ∈ newRows, r.allocated = 0) ∧
    ((((getSlotsForDayHandler ⟨[]⟩ [⟨0, 0, 0, 1000⟩]
        [⟨5, 0, .appointment, 120, 30, [⟨0, 540, 780⟩]⟩] [] 0 7).1.tokenSlots.filter
        (fun s => s.day = 7 && s.resource = 0)).map
        (fun s => (s.startTime, s.endTime, s.availabilityId))).Nodup) :=
  c5_idempotent_materialization ⟨[]⟩ [⟨0, 0, 0, 1000⟩]
    [⟨5, 0, .appointment, 120, 30, [⟨0, 540, 780⟩]⟩] [] 0 7 (by decide)

/-! Helpers for the stats/materialization equivalence. -/

theorem foldl_add_shift {α : Type} (l : List α) (g : Nat → α → Nat) (f : α → Nat)
    (hg : ∀ acc x, g acc x = acc + f x) : ∀ init, l.foldl g init = init + (l.map f).sum := by
  induction l with
  | nil => intro init; simp
  | cons x t ih =>
    intro init
    rw [List.foldl_cons, hg, ih]
    simp [Nat.add_assoc]

theorem sum_map_add {α : Type} (A : List α) (f g : α → Nat) :
    (A.map (fun a => f a + g a)).sum = (A.map f).sum + (A.map g).sum := by
  induction A with
  | nil => rfl
  | cons a t ih =>
    simp only [List.map_cons, List.sum_cons, ih]
    omega

theorem sum_sum_swap {α β : Type} (S : List β) (A : List α) (h : β → α → Nat) :
    (S.map (fun sch => (A.map (fun a => h sch a)).sum)).sum =
      (A.map (fun a => (S.map (fun sch => h sch a)).sum)).sum := by
  induction S with
  | nil => simp
  | cons sch t ih =>
    simp only [List.map_cons, List.sum_cons, ih]
    rw [← sum_map_add]

theorem sum_map_filter {α : Type} (A : List α) (p : α → Bool) (g : α → Nat) :
    ((A.filter p).map g).sum = (A.map (fun a => if p a then g a else 0)).sum := by
  induction A with
  | nil => rfl
  | cons a t ih =>
    rw [List.filter_cons]
    by_cases hp : p a
    · simp [hp, ih]
    · simp [hp, ih]

theorem sum_map_flatMap {α β : Type} (l : List α) (f : α → List β) (g : β → Nat) :
    ((l.flatMap f).map g).sum = (l.map (fun x => ((f x).map g).sum)).sum := by
  induction l with
  | nil => rfl
  | cons x t ih =>
    simp [List.flatMap_cons, List.map_append, List.sum_append, ih]

theorem find?_id_of_nodup (l : List AvailabilityRec)
    (hids : (l.map (fun a => a.id)).Nodup) (a : AvailabilityRec) (ha : a ∈ l) :
    l.find? (fun x => x.id = a.id) = some a := by
  induction l with
  | nil => simp at ha
  | cons b t ih =>
    rw [List.map_cons, List.nodup_cons] at hids
    rcases List.mem_cons.mp ha with rfl | ha'
    · rw [List.find?_cons_of_pos]
      simp
    · by_cases hb : b.id = a.id
      · exfalso
        apply hids.1
        rw [hb]
        exact List.mem_map.mpr ⟨a, ha', rfl⟩
      · rw [List.find?_cons_of_neg]
        · exact ih hids.2 ha'
        · simpa using hb

theorem sum_if_id_eq (S : List ScheduleRec)
    (hS : (S.map (fun s => s.id)).Nodup) (sid v : Nat) :
    (S.map (fun sch => if sid = sch.id then v else 0)).sum =
      if S.any (fun sch => sch.id = sid) then v else 0 := by
  induction S with
  | nil => simp
  | cons sch t ih =>
    rw [List.map_cons, List.nodup_cons] at hS
    rw [List.map_cons, List.sum_cons, List.any_cons]
    by_cases h : sid = sch.id
    · rw [if_pos h]
      have hz : (t.map (fun sch => if sid = sch.id then v else 0)).sum = 0 := by
        rw [List.sum_eq_zero_iff]
        intro x hx
        obtain ⟨sch2, hsch2, hx2⟩ := List.mem_map.mp hx
        rw [← hx2]
        rw [if_neg]
        intro he
        exact hS.1 (List.mem_map.mpr ⟨sch2, hsch2, by omega⟩)
      rw [hz]
      have : (decide (sch.id = sid) || t.any fun sch => sch.id = sid) = true := by
        simp [h.symm]
      rw [this, if_pos rfl]
      omega
    · rw [if_neg h, ih hS.2]
      have hd : decide (sch.id = sid) = false := by
        simp
        intro he
        exact h he.symm
      rw [hd, Bool.false_or]
      omega

theorem foldl_upsert_of_nodup (cands : List ((Nat × Nat) × CandidateSlot)) :
    ∀ m, ((dictKeys m) ++ cands.map (fun p => p.1)).Nodup →
    cands.foldl upsert m = m ++ cands := by
  induction cands with
  | nil => intro m _; simp
  | cons c t ih =>
    intro m h
    rw [List.foldl_cons]
    have hnotin : c.1 ∉ dictKeys m := by
      intro hin
      rw [List.nodup_append] at h
      exact h.2.2 hin (by simp)
    have hc : ¬m.any (fun p => p.1 = c.1) = true := by
      intro hany
      obtain ⟨p, hp, hpeq⟩ := List.any_eq_true.mp hany
      exact hnotin (List.mem_map.mpr ⟨p, hp, by simpa using hpeq⟩)
    rw [show upsert m c = m ++ [c] by rw [upsert, if_neg hc]]
    rw [ih (m ++ [c]) ?_]
    · rw [List.append_assoc]
      rfl
    · rw [dictKeys, List.map_append]
      simp only [List.map_cons, List.map_nil]
      rw [List.append_assoc]
      simpa [dictKeys] using h

/-- With enough fuel on both sides and a positive slot size, the counting
loop of `calculate_slots` adds `tokens` once per surviving candidate of the
materializer's loop. -/
theorem calcWindow_eq_count (excs : List AvailabilityExceptionRec)
    (endT size tokens aid : Nat) (hsize : 1 ≤ size) :
    ∀ fuel1, ∀ fuel2 cur, endT ≤ cur + size * fuel1 → endT ≤ cur + size * fuel2 →
    calcWindow excs endT size tokens cur fuel2 =
      tokens * (convertWindow excs endT size aid cur fuel1).length := by
  intro fuel1
  induction fuel1 with
  | zero =>
    intro fuel2 cur h1 h2
    rw [Nat.mul_zero] at h1
    have hnot : ¬cur < endT := by omega
    rw [convertWindow]
    cases fuel2 with
    | zero => simp [calcWindow]
    | succ f2 =>
      rw [calcWindow, if_neg hnot]
      simp
  | succ f1 ih =>
    intro fuel2 cur h1 h2
    by_cases hlt : cur < endT
    · have hf2 : ∃ f2, fuel2 = f2 + 1 := by
        rcases fuel2 with _ | f2
        · exfalso; omega
        · exact ⟨f2, rfl⟩
      obtain ⟨f2, rfl⟩ := hf2
      rw [Nat.mul_succ] at h1 h2
      rw [calcWindow, if_pos hlt, convertWindow, if_pos hlt]
      rw [ih f2 (cur + size) (by omega) (by omega)]
      by_cases hc : exceptionConflicts excs cur size = true
      · rw [if_pos hc, if_pos hc]
        simp
      · rw [if_neg hc, if_neg hc]
        simp only [List.singleton_append, List.length_cons]
        rw [Nat.mul_succ]
        omega
    · rw [convertWindow, if_neg hlt]
      cases fuel2 with
      | zero => simp [calcWindow]
      | succ f2 =>
        rw [calcWindow, if_neg hlt]
        simp

/-- The keys of all candidates generated for a day, across all day-of-week
availabilities, in generation order. -/
def allCandidateKeys (davails : List DowAvailability) : List (Nat × Nat) :=
  davails.flatMap (fun a =>
    (convertWindow [] a.availability.endTime a.slotSizeInMinutes
      a.availabilityId a.availability.startTime 29).map (fun p => p.1))

/-- When no two candidates share a (start, end) key, the dict degenerates
to plain concatenation of the per-window candidate lists. -/
theorem convertSlots_eq_flatMap (davails : List DowAvailability)
    (h : (allCandidateKeys davails).Nodup) :
    convertAvailabilityAndExceptionsToSlots davails [] =
      davails.flatMap (fun a => convertWindow [] a.availability.endTime
        a.slotSizeInMinutes a.availabilityId a.availability.startTime 29) := by
  unfold convertAvailabilityAndExceptionsToSlots
  suffices hgen : ∀ m, ((dictKeys m) ++ allCandidateKeys davails).Nodup →
      davails.foldl (fun slots a =>
        (convertWindow [] a.availability.endTime a.slotSizeInMinutes
          a.availabilityId a.availability.startTime 29).foldl upsert slots) m =
      m ++ davails.flatMap (fun a => convertWindow [] a.availability.endTime
        a.slotSizeInMinutes a.availabilityId a.availability.startTime 29) by
    simpa [dictKeys] using hgen [] (by simpa [dictKeys] using h)
  clear h
  induction davails with
  | nil => intro m _; simp
  | cons a t ih =>
    intro m hm
    rw [List.foldl_cons]
    rw [allCandidateKeys, List.flatMap_cons] at hm
    have hm1 : (dictKeys m ++ (convertWindow [] a.availability.endTime
        a.slotSizeInMinutes a.availabilityId a.availability.startTime 29).map
        (fun p => p.1)).Nodup := by
      refine List.Nodup.sublist ?_ hm
      rw [← List.append_assoc]
      exact List.sublist_append_left _ _
    rw [foldl_upsert_of_nodup _ m hm1]
    rw [ih (m ++ convertWindow [] a.availability.endTime a.slotSizeInMinutes
        a.availabilityId a.availability.startTime 29) ?_]
    · rw [List.flatMap_cons, List.append_assoc]
    · simpa [dictKeys, allCandidateKeys] using hm

theorem any_filter {α : Type} (l : List α) (q p : α → Bool) :
    (l.filter q).any p = l.any (fun x => p x && q x) := by
  induction l with
  | nil => rfl
  | cons x t ih =>
    rw [List.filter_cons]
    by_cases hq : q x
    · simp [hq, ih]
    · simp [hq, ih]

/-- Summing a per-availability quantity grouped by schedule (as
`calculate_slots` does) equals summing it over the availabilities whose
schedule matches (as the materializer does), provided schedule ids are
unique. -/
theorem double_count (schedules : List ScheduleRec)
    (availabilities : List AvailabilityRec)
    (hsch : (schedules.map (fun s => s.id)).Nodup)
    (q : ScheduleRec → Bool) (appt : AvailabilityRec → Bool)
    (f : AvailabilityRec → Nat) :
    ((schedules.filter q).map (fun sch =>
      ((availabilities.filter (fun a => a.scheduleId = sch.id && appt a)).map
        f).sum)).sum =
    ((availabilities.filter (fun a => appt a &&
        schedules.any (fun sch => sch.id = a.scheduleId && q sch))).map f).sum := by
  have hqnodup : ((schedules.filter q).map (fun s => s.id)).Nodup :=
    ((List.filter_sublist schedules).map _).nodup hsch
  calc ((schedules.filter q).map (fun sch =>
        ((availabilities.filter (fun a => a.scheduleId = sch.id && appt a)).map
          f).sum)).sum
      = ((schedules.filter q).map (fun sch =>
        (availabilities.map (fun a =>
          if a.scheduleId = sch.id && appt a then f a else 0)).sum)).sum := by
        refine congrArg List.sum (List.map_congr_left (fun sch _ => ?_))
        exact sum_map_filter availabilities _ f
    _ = (availabilities.map (fun a => ((schedules.filter q).map (fun sch =>
          if a.scheduleId = sch.id && appt a then f a else 0)).sum)).sum :=
        sum_sum_swap _ _ _
    _ = (availabilities.map (fun a =>
          if appt a && schedules.any (fun sch => sch.id = a.scheduleId && q sch)
          then f a else 0)).sum := by
        refine congrArg List.sum (List.map_congr_left (fun a _ => ?_))
        by_cases happt : appt a = true
        · have hinner : ((schedules.filter q).map (fun sch =>
              if a.scheduleId = sch.id && appt a then f a else 0)) =
              ((schedules.filter q).map (fun sch =>
                if a.scheduleId = sch.id then f a else 0)) := by
            refine List.map_congr_left (fun sch _ => ?_)
            rw [happt]
            simp
          rw [hinner, sum_if_id_eq _ hqnodup]
          rw [any_filter, happt, Bool.true_and]
        · have hinner : ((schedules.filter q).map (fun sch =>
              if a.scheduleId = sch.id && appt a then f a else 0)) =
              ((schedules.filter q).map (fun _ => 0)) := by
            refine List.map_congr_left (fun sch _ => ?_)
            simp only [Bool.not_eq_true] at happt
            simp [happt]
          rw [hinner]
          simp only [Bool.not_eq_true] at happt
          rw [happt, Bool.false_and, if_neg (by simp)]
          simp
    _ = ((availabilities.filter (fun a => appt a &&
          schedules.any (fun sch => sch.id = a.scheduleId && q sch))).map f).sum :=
        (sum_map_filter availabilities _ f).symm

/-- The `tokens_per_slot` annotation a returned slot row carries: that of
its availability. -/
def tokensOf (availabilities : List AvailabilityRec) (aid : Nat) : Nat :=
  match availabilities.find? (fun a => a.id = aid) with
  | some a => a.tokensPerSlot
  | none => 0

theorem sumTokensPerSlot_eq (availabilities : List AvailabilityRec)
    (rows : List TokenSlotRow) :
    sumTokensPerSlot availabilities rows =
      (rows.map (fun r => tokensOf availabilities r.availabilityId)).sum := rfl

theorem tokensOf_id (availabilities : List AvailabilityRec)
    (hids : (availabilities.map (fun a => a.id)).Nodup)
    (a : AvailabilityRec) (ha : a ∈ availabilities) :
    tokensOf availabilities a.id = a.tokensPerSlot := by
  unfold tokensOf
  rw [find?_id_of_nodup availabilities hids a ha]

theorem sum_map_const {α : Type} (l : List α) (c : Nat) :
    (l.map (fun _ => c)).sum = l.length * c := by
  induction l with
  | nil => simp
  | cons x t ih =>
    simp only [List.map_cons, List.sum_cons, List.length_cons, ih]
    rw [Nat.succ_mul]
    omega

/-- C4 (amended): for a resource with no availability exceptions, distinct
availability and schedule ids, validator-conforming slot sizes (`≥ 1`,
every window at most 29 slots long) and no two candidate slots sharing a
(start, end) time key, the `total_slots` that `availability_stats` reports
for day `d` of the half-open period `[d, d+1)` equals the sum of
`tokens_per_slot` over the slots `get_slots_for_day` returns for `d` from
an empty slot table. -/
theorem c4_stats_materialization_equivalence
    (schedules : List ScheduleRec) (availabilities : List AvailabilityRec)
    (resource d : Nat)
    (hids : (availabilities.map (fun a => a.id)).Nodup)
    (hsch : (schedules.map (fun sch => sch.id)).Nodup)
    (hsize : ∀ a ∈ availabilities, 1 ≤ a.slotSizeInMinutes ∧
      ∀ w ∈ a.availability, w.endTime ≤ w.startTime + 29 * a.slotSizeInMinutes)
    (hkeys : (allCandidateKeys
      (dowAvailabilities schedules availabilities resource d)).Nodup) :
    ∃ totals, availabilityStats schedules availabilities [] resource d (d + 1) =
        .ok totals ∧
      totals.lookup d = some (sumTokensPerSlot availabilities
        (getSlotsForDayHandler ⟨[]⟩ schedules availabilities [] resource d).2) := by
  set Pmat : AvailabilityRec → Bool := fun a =>
    a.slotType = SlotTypeOptions.appointment &&
      schedules.any (fun sch => sch.id = a.scheduleId && sch.resource = resource &&
        decide (sch.validFrom ≤ d) && decide (d ≤ sch.validTo)) with hPmat
  set f : AvailabilityRec → Nat := fun a =>
    ((a.availability.filter (fun w => w.dayOfWeek = weekday d)).map
      (fun w => (convertWindow [] w.endTime a.slotSizeInMinutes a.id
        w.startTime 29).length * a.tokensPerSlot)).sum with hf
  set cache : Nat → List AvailabilityRec := fun sid =>
    availabilities.filter (fun a => a.scheduleId = sid &&
      a.slotType = SlotTypeOptions.appointment) with hcache
  set S2 : List ScheduleRec :=
    (schedules.filter (fun sch => sch.resource = resource &&
      decide (sch.validFrom ≤ d + 1) && decide (d ≤ sch.validTo))).filter
      (fun sch => decide (sch.validFrom ≤ d) && decide (d ≤ sch.validTo)) with hS2
  set X : Nat := calculateSlots d cache S2 [] with hX
  have hstats : availabilityStats schedules availabilities [] resource d (d + 1) =
      .ok [(d, X)] := by
    rw [hX, hS2, hcache]
    unfold availabilityStats
    rw [if_neg (by omega), if_neg (by omega)]
    rw [show d + 1 - d = 1 from by omega]
    rfl
  -- Materializer side.
  have hmat : sumTokensPerSlot availabilities
      (getSlotsForDayHandler ⟨[]⟩ schedules availabilities [] resource d).2 =
      ((availabilities.filter Pmat).map f).sum := by
    rw [hPmat, hf]
    have h1 : (getSlotsForDayHandler ⟨[]⟩ schedules availabilities [] resource d).2 =
        ((convertAvailabilityAndExceptionsToSlots
          (dowAvailabilities schedules availabilities resource d) []).map
          (fun p => TokenSlotRow.mk resource d p.2.startTime p.2.endTime
            p.2.availabilityId 0)).filter
          (fun s => s.day = d && s.resource = resource) := rfl
    have h2 : ∀ rows : List ((Nat × Nat) × CandidateSlot),
        ((rows.map (fun p => TokenSlotRow.mk resource d p.2.startTime p.2.endTime
          p.2.availabilityId 0)).filter
          (fun s => s.day = d && s.resource = resource)) =
        rows.map (fun p => TokenSlotRow.mk resource d p.2.startTime p.2.endTime
          p.2.availabilityId 0) := by
      intro rows
      refine List.filter_eq_self.mpr ?_
      intro r hr
      obtain ⟨p, _, rfl⟩ := List.mem_map.mp hr
      simp
    have h3 : ((dowAvailabilities schedules availabilities resource d).flatMap
        (fun a => convertWindow [] a.availability.endTime a.slotSizeInMinutes
          a.availabilityId a.availability.startTime 29)).map
        ((fun r => tokensOf availabilities r.availabilityId) ∘
          (fun p => TokenSlotRow.mk resource d p.2.startTime p.2.endTime
            p.2.availabilityId 0)) =
        ((dowAvailabilities schedules availabilities resource d).flatMap
        (fun a => convertWindow [] a.availability.endTime a.slotSizeInMinutes
          a.availabilityId a.availability.startTime 29)).map
        (fun p => tokensOf availabilities p.2.availabilityId) := rfl
    have h4 : ∀ dv : DowAvailability,
        ((convertWindow [] dv.availability.endTime dv.slotSizeInMinutes
          dv.availabilityId dv.availability.startTime 29).map
          (fun p => tokensOf availabilities p.2.availabilityId)).sum =
        (convertWindow [] dv.availability.endTime dv.slotSizeInMinutes
          dv.availabilityId dv.availability.startTime 29).length *
          tokensOf availabilities dv.availabilityId := by
      intro dv
      have hc : ∀ p ∈ convertWindow [] dv.availability.endTime dv.slotSizeInMinutes
          dv.availabilityId dv.availability.startTime 29,
          tokensOf availabilities p.2.availabilityId =
          tokensOf availabilities dv.availabilityId := by
        intro p hp
        rw [(mem_convertWindow_nil _ _ _ 29 _ p hp).2.2.2.2]
      calc ((convertWindow [] dv.availability.endTime dv.slotSizeInMinutes
            dv.availabilityId dv.availability.startTime 29).map
            (fun p => tokensOf availabilities p.2.availabilityId)).sum
          = ((convertWindow [] dv.availability.endTime dv.slotSizeInMinutes
            dv.availabilityId dv.availability.startTime 29).map
            (fun _ => tokensOf availabilities dv.availabilityId)).sum :=
            congrArg List.sum (List.map_congr_left hc)
        _ = (convertWindow [] dv.availability.endTime dv.slotSizeInMinutes
            dv.availabilityId dv.availability.startTime 29).length *
            tokensOf availabilities dv.availabilityId := sum_map_const _ _
    have h5 : (dowAvailabilities schedules availabilities resource d).map
        (fun dv => ((convertWindow [] dv.availability.endTime dv.slotSizeInMinutes
          dv.availabilityId dv.availability.startTime 29).map
          (fun p => tokensOf availabilities p.2.availabilityId)).sum) =
        (dowAvailabilities schedules availabilities resource d).map
        (fun dv => (convertWindow [] dv.availability.endTime dv.slotSizeInMinutes
          dv.availabilityId dv.availability.startTime 29).length *
          tokensOf availabilities dv.availabilityId) :=
      List.map_congr_left (fun dv _ => h4 dv)
    rw [h1, h2, convertSlots_eq_flatMap _ hkeys, sumTokensPerSlot_eq,
      List.map_map, h3, sum_map_flatMap, h5]
    show (((availabilities.filter (fun a =>
        a.slotType = SlotTypeOptions.appointment &&
        schedules.any (fun sch => sch.id = a.scheduleId && sch.resource = resource &&
          decide (sch.validFrom ≤ d) && decide (d ≤ sch.validTo)))).flatMap
        (fun a => (a.availability.filter (fun w => w.dayOfWeek = weekday d)).map
          (fun w => (⟨w, a.slotSizeInMinutes, a.id⟩ : DowAvailability)))).map
        (fun dv => (convertWindow [] dv.availability.endTime dv.slotSizeInMinutes
          dv.availabilityId dv.availability.startTime 29).length *
          tokensOf availabilities dv.availabilityId)).sum = _
    rw [sum_map_flatMap]
    refine congrArg List.sum (List.map_congr_left (fun a ha => ?_))
    have ha' : a ∈ availabilities := List.mem_of_mem_filter ha
    rw [List.map_map]
    refine congrArg List.sum (List.map_congr_left (fun w hw => ?_))
    show (convertWindow [] w.endTime a.slotSizeInMinutes a.id w.startTime 29).length *
        tokensOf availabilities a.id =
      (convertWindow [] w.endTime a.slotSizeInMinutes a.id w.startTime 29).length *
        a.tokensPerSlot
    rw [tokensOf_id availabilities hids a ha']
  -- Statistics side.
  have hFf : ∀ a ∈ availabilities,
      ((a.availability.filter (fun w => w.dayOfWeek = weekday d)).map
        (fun w => calcWindow [] w.endTime a.slotSizeInMinutes a.tokensPerSlot
          w.startTime w.endTime)).sum =
      ((a.availability.filter (fun w => w.dayOfWeek = weekday d)).map
        (fun w => (convertWindow [] w.endTime a.slotSizeInMinutes a.id
          w.startTime 29).length * a.tokensPerSlot)).sum := by
    intro a ha
    obtain ⟨hsz, hbound⟩ := hsize a ha
    refine congrArg List.sum (List.map_congr_left (fun w hw => ?_))
    have hw' : w ∈ a.availability := List.mem_of_mem_filter hw
    have hcw := calcWindow_eq_count [] w.endTime a.slotSizeInMinutes
      a.tokensPerSlot a.id hsz 29 w.endTime w.startTime
      (by have := hbound w hw'; omega)
      (by
        have hle : w.endTime ≤ a.slotSizeInMinutes * w.endTime :=
          Nat.le_mul_of_pos_left _ hsz
        omega)
    rw [hcw, Nat.mul_comm]
  have hstatsval : X = ((availabilities.filter Pmat).map f).sum := by
    rw [hX, hS2, hcache, hPmat, hf]
    unfold calculateSlots
    have hstep2 : ∀ (a : AvailabilityRec) (acc2 : Nat),
        (a.availability.filter (fun w => w.dayOfWeek = weekday d)).foldl
          (fun acc3 w => acc3 + calcWindow [] w.endTime a.slotSizeInMinutes
            a.tokensPerSlot w.startTime w.endTime) acc2 =
        acc2 + ((a.availability.filter (fun w => w.dayOfWeek = weekday d)).map
          (fun w => calcWindow [] w.endTime a.slotSizeInMinutes a.tokensPerSlot
            w.startTime w.endTime)).sum :=
      fun a acc2 => foldl_add_shift _ _ _ (fun _ _ => rfl) acc2
    have hstep1 : ∀ (sch : ScheduleRec) (acc : Nat),
        (availabilities.filter (fun a => a.scheduleId = sch.id &&
          a.slotType = SlotTypeOptions.appointment)).foldl
          (fun acc2 a =>
            (a.availability.filter (fun w => w.dayOfWeek = weekday d)).foldl
              (fun acc3 w => acc3 + calcWindow [] w.endTime a.slotSizeInMinutes
                a.tokensPerSlot w.startTime w.endTime) acc2) acc =
        acc + ((availabilities.filter (fun a => a.scheduleId = sch.id &&
          a.slotType = SlotTypeOptions.appointment)).map (fun a =>
          ((a.availability.filter (fun w => w.dayOfWeek = weekday d)).map
            (fun w => calcWindow [] w.endTime a.slotSizeInMinutes a.tokensPerSlot
              w.startTime w.endTime)).sum)).sum :=
      fun sch acc => foldl_add_shift _ _ _ (fun acc2 a => hstep2 a acc2) acc
    rw [foldl_add_shift
      ((schedules.filter (fun sch => sch.resource = resource &&
        decide (sch.validFrom ≤ d + 1) && decide (d ≤ sch.validTo))).filter
        (fun sch => decide (sch.validFrom ≤ d) && decide (d ≤ sch.validTo)))
      _ _ (fun acc sch => hstep1 sch acc) 0, Nat.zero_add]
    have hS2q : (schedules.filter (fun sch => sch.resource = resource &&
        decide (sch.validFrom ≤ d + 1) && decide (d ≤ sch.validTo))).filter
        (fun sch => decide (sch.validFrom ≤ d) && decide (d ≤ sch.validTo)) =
        schedules.filter (fun sch => sch.resource = resource &&
          decide (sch.validFrom ≤ d) && decide (d ≤ sch.validTo)) := by
      rw [List.filter_filter]
      refine List.filter_congr (fun sch _ => ?_)
      by_cases h1 : sch.resource = resource <;>
        by_cases h2 : sch.validFrom ≤ d <;>
        by_cases h3 : d ≤ sch.validTo <;>
        simp [h1, h2, h3] <;> omega
    rw [hS2q]
    have hdc := double_count schedules availabilities hsch
      (fun sch => sch.resource = resource && decide (sch.validFrom ≤ d) &&
        decide (d ≤ sch.validTo))
      (fun a => a.slotType = SlotTypeOptions.appointment)
      (fun a => ((a.availability.filter (fun w => w.dayOfWeek = weekday d)).map
        (fun w => calcWindow [] w.endTime a.slotSizeInMinutes a.tokensPerSlot
          w.startTime w.endTime)).sum)
    rw [hdc]
    have hpred : (fun a : AvailabilityRec =>
        a.slotType = SlotTypeOptions.appointment &&
        schedules.any (fun sch => sch.id = a.scheduleId &&
          (sch.resource = resource && decide (sch.validFrom ≤ d) &&
            decide (d ≤ sch.validTo)))) = (fun a : AvailabilityRec =>
        a.slotType = SlotTypeOptions.appointment &&
        schedules.any (fun sch => sch.id = a.scheduleId && sch.resource = resource &&
          decide (sch.validFrom ≤ d) && decide (d ≤ sch.validTo))) := by
      funext a
      simp only [Bool.and_assoc]
    rw [hpred]
    exact congrArg List.sum (List.map_congr_left
      (fun a ha => hFf a (List.mem_of_mem_filter ha)))
  refine ⟨[(d, X)], hstats, ?_⟩
  have hXfinal : X = sumTokensPerSlot availabilities
      (getSlotsForDayHandler ⟨[]⟩ schedules availabilities [] resource d).2 :=
    hstatsval.trans hmat.symm
  rw [hXfinal]
  simp [List.lookup]

/-- C4, counterexample to the claim as stated: `availability_stats` loops
`while day < to_date`, so the call `availability_stats(resource, d, d)` the
claim quantifies over reports no `total_slots` value for day `d` at all,
while `get_slots_for_day(resource, d)` materializes two slots whose
`tokens_per_slot` add to 20. -/
theorem c4_counterexample :
    availabilityStats [⟨0, 0, 0, 1000⟩]
      [⟨5, 0, SlotTypeOptions.appointment, 60, 10, [⟨0, 540, 660⟩]⟩] [] 0 7 7 =
      .ok [] ∧
    (∀ totals, availabilityStats [⟨0, 0, 0, 1000⟩]
      [⟨5, 0, SlotTypeOptions.appointment, 60, 10, [⟨0, 540, 660⟩]⟩] [] 0 7 7 =
      .ok totals → totals.lookup 7 = none) ∧
    sumTokensPerSlot [⟨5, 0, SlotTypeOptions.appointment, 60, 10, [⟨0, 540, 660⟩]⟩]
      (getSlotsForDayHandler ⟨[]⟩ [⟨0, 0, 0, 1000⟩]
        [⟨5, 0, SlotTypeOptions.appointment, 60, 10, [⟨0, 540, 660⟩]⟩]
        [] 0 7).2 = 20 := by
  refine ⟨rfl, ?_, by decide⟩
  intro totals h
  cases h
  rfl

theorem c4_stats_materialization_equivalence_witness :
    ∃ totals, availabilityStats [⟨0, 0, 0, 1000⟩]
        [⟨5, 0, SlotTypeOptions.appointment, 60, 10, [⟨0, 540, 660⟩]⟩] [] 0 7
        (7 + 1) = .ok totals ∧
      totals.lookup 7 = some (sumTokensPerSlot
        [⟨5, 0, SlotTypeOptions.appointment, 60, 10, [⟨0, 540, 660⟩]⟩]
        (getSlotsForDayHandler ⟨[]⟩ [⟨0, 0, 0, 1000⟩]
          [⟨5, 0, SlotTypeOptions.appointment, 60, 10, [⟨0, 540, 660⟩]⟩]
          [] 0 7).2) :=
  c4_stats_materialization_equivalence [⟨0, 0, 0, 1000⟩]
    [⟨5, 0, SlotTypeOptions.appointment, 60, 10, [⟨0, 540, 660⟩]⟩] 0 7
    (by decide) (by decide) (by decide) (by decide)

/-! ## Availability-exception creation (`AvailabilityExceptionWriteSpec`) -/

/-- The queryset of `perform_extra_deserialization`: slots of the
exception's resource whose start date lies in `[valid_from, valid_to]` and
whose start TIME lies in `[start_time, end_time]` — the source filters on
`start_datetime__time__gte/lte`, i.e. on the slot's start instant, not on
overlap of the slot's `[start, end)` interval with the exception. -/
def exceptionSlotMatches (e : AvailabilityExceptionRec) (s : TokenSlotRow) : Bool :=
  s.resource = e.resource && decide (e.validFrom ≤ s.day) &&
    decide (s.day ≤ e.validTo) && decide (e.startTime ≤ s.startTime) &&
    decide (s.startTime ≤ e.endTime)

/-- `AvailabilityExceptionWriteSpec.perform_extra_deserialization` (create
path, resource resolved): if any matching slot is allocated, raise
`ValidationError` (the create aborts, state unchanged); else delete every
matching slot. -/
def availabilityExceptionCreate (st : MatState) (e : AvailabilityExceptionRec) :
    Except String MatState :=
  if (st.tokenSlots.filter (exceptionSlotMatches e)).any
      (fun s => decide (0 < s.allocated)) then
    .error "There are bookings during this exception"
  else
    .ok ⟨st.tokenSlots.filter (fun s => !(exceptionSlotMatches e s))⟩

/-- C7 (amended): creating an exception is rejected with no state change
exactly when some slot whose START time falls inside the exception's date
and daily time range (the source's queryset keys on `start_datetime`, not
on interval overlap) has `allocated > 0`; otherwise exactly the matching
slots — all necessarily with `allocated = 0` — are deleted, and a slot
with nonzero allocation is never deleted. -/
theorem c7_exception_creation_side_effects
    (st : MatState) (e : AvailabilityExceptionRec) :
    ((∃ s ∈ st.tokenSlots, exceptionSlotMatches e s ∧ 0 < s.allocated) →
      availabilityExceptionCreate st e =
        .error "There are bookings during this exception") ∧
    ((∀ s ∈ st.tokenSlots, exceptionSlotMatches e s → s.allocated = 0) →
      availabilityExceptionCreate st e =
        .ok ⟨st.tokenSlots.filter (fun s => !(exceptionSlotMatches e s))⟩) ∧
    (∀ st', availabilityExceptionCreate st e = .ok st' →
      ∀ s ∈ st.tokenSlots, 0 < s.allocated → s ∈ st'.tokenSlots) := by
  refine ⟨?_, ?_, ?_⟩
  · rintro ⟨s, hs, hm, ha⟩
    unfold availabilityExceptionCreate
    rw [if_pos]
    exact List.any_eq_true.mpr
      ⟨s, List.mem_filter.mpr ⟨hs, hm⟩, by simpa using ha⟩
  · intro h
    unfold availabilityExceptionCreate
    rw [if_neg]
    intro hany
    obtain ⟨s, hsf, halloc⟩ := List.any_eq_true.mp hany
    obtain ⟨hs, hm⟩ := List.mem_filter.mp hsf
    have := h s hs hm
    simp at halloc
    omega
  · intro st' hok s hs hpos
    unfold availabilityExceptionCreate at hok
    by_cases hany : (st.tokenSlots.filter (exceptionSlotMatches e)).any
        (fun s => decide (0 < s.allocated)) = true
    · rw [if_pos hany] at hok
      cases hok
    · rw [if_neg hany] at hok
      cases hok
      refine List.mem_filter.mpr ⟨hs, ?_⟩
      by_cases hm : exceptionSlotMatches e s = true
      · exfalso
        exact hany (List.any_eq_true.mpr
          ⟨s, List.mem_filter.mpr ⟨hs, hm⟩, by simpa using hpos⟩)
      · simpa using hm

theorem c7_exception_creation_side_effects_witness :
    (∃ s ∈ (MatState.mk [⟨0, 0, 600, 660, 5, 1⟩]).tokenSlots,
      exceptionSlotMatches ⟨0, 0, 10, 540, 720⟩ s ∧ 0 < s.allocated) ∧
    availabilityExceptionCreate ⟨[⟨0, 0, 600, 660, 5, 1⟩]⟩ ⟨0, 0, 10, 540, 720⟩ =
      .error "There are bookings during this exception" :=
  ⟨⟨⟨0, 0, 600, 660, 5, 1⟩, by decide, by decide, by decide⟩,
   (c7_exception_creation_side_effects ⟨[⟨0, 0, 600, 660, 5, 1⟩]⟩
      ⟨0, 0, 10, 540, 720⟩).1
    ⟨⟨0, 0, 600, 660, 5, 1⟩, by decide, by decide, by decide⟩⟩

/-- C7, counterexample to the claim as stated: the slot `[600, 660)` with
`allocated = 1` intersects the exception's daily range `[630, 720]`
(`630 < 660` and `600 < 720`), so the claim demands rejection; but the
source's queryset keys on the slot's start time (`600 < 630`), so the
creation succeeds and even leaves the allocated, intersecting slot in
place undeleted. -/
theorem c7_counterexample :
    (630 < 660 ∧ 600 < 720) ∧
    availabilityExceptionCreate ⟨[⟨0, 0, 600, 660, 5, 1⟩]⟩ ⟨0, 0, 10, 630, 720⟩ =
      .ok ⟨[⟨0, 0, 600, 660, 5, 1⟩]⟩ :=
  ⟨⟨by decide, by decide⟩, rfl⟩

end Care
